import Mathlib

/-!
# OTLP trace translation (`otlp/trace.go`)

A shallow embedding of the live code path of `otlp/trace.go`: the trace-ID
formatter `BytesToTraceID`, the status reconciliation `getSpanStatusCode`,
the sample-rate extraction `getSampleRate`, the body decoder `parseOTLPBody`
and the span translator `TranslateTraceReq`.

Conventions of the embedding.

* A Go call either returns or panics: `Outcome`.
* Go byte slices are lists of `Byte`; an index or slice expression outside the
  bounds is a panic, so every indexing step of the source is a checked step here.
* Go maps are references. Maps that are shared between values live in a `Heap`
  and are named by their address; `Value.mapRef` is such a reference.
* The standard library and the protobuf packages are not part of the
  repository; what the code needs from them is a field of `Env`.
* `fmt.Println` calls only print and are left out.
-/

namespace Otlp

/-! ## Basic types -/

/-- A Go `byte`. -/
abbrev Byte := Fin 256

/-- Outcome of running a piece of Go code: a normal return with a value, or a
run-time panic (index out of range, nil pointer dereference). -/
inductive Outcome (α : Type) where
  | ret (a : α)
  | panic
  deriving Repr, DecidableEq

/-- Sequencing of two steps: a panic in the first ends the run. -/
def Outcome.bind {α β : Type} (x : Outcome α) (f : α → Outcome β) : Outcome β :=
  match x with
  | .ret a => f a
  | .panic => .panic

/-! ## Constants of `trace.go` -/

def traceIDShortLength : Nat := 8

def traceIDLongLength : Nat := 16

def zeroSampleRate : Int := 0

def defaultSampleRate : Int := 1

def defaultServiceName : String := "unknown_service"

/-- Largest `int32`, Go's `math.MaxInt32`. -/
def MaxInt32 : Int := 2147483647

/-! ## `encoding/hex` -/

/-- The table `hextable` of `encoding/hex`: `"0123456789abcdef"`. -/
def hextable : List Char :=
  ['0', '1', '2', '3', '4', '5', '6', '7', '8', '9', 'a', 'b', 'c', 'd', 'e', 'f']

/-- The character `hextable[n]`, for a nibble `n`. -/
def hexDigit (n : Nat) : Char := hextable.getD n '0'

/-- Go's `make([]byte, n)`: a buffer of `n` zero bytes. A buffer that is later
turned into a string is kept as the list of its characters. -/
def makeBytes (n : Nat) : List Char := List.replicate n (Char.ofNat 0)

/-- The loop of `hex.Encode(dst, src)`, with `j` the write position:
`dst[j] = hextable[v>>4]; dst[j+1] = hextable[v&0x0f]; j += 2` for every byte
`v` of `src`. A write outside `dst` panics. -/
def hexEncodeFrom : List Byte → Nat → List Char → Outcome (List Char)
  | [], _, dst => .ret dst
  | v :: rest, j, dst =>
    if j < dst.length then
      let dst1 := dst.set j (hexDigit (v.val / 16))
      if j + 1 < dst1.length then
        hexEncodeFrom rest (j + 2) (dst1.set (j + 1) (hexDigit (v.val % 16)))
      else .panic
    else .panic

/-- Go's `hex.Encode(dst, src)`; the result is the buffer `dst` after the call. -/
def hexEncode (dst : List Char) (src : List Byte) : Outcome (List Char) :=
  hexEncodeFrom src 0 dst

/-- The two lowercase hexadecimal digits of a byte, high nibble first. -/
def hexPair (v : Byte) : List Char := [hexDigit (v.val / 16), hexDigit (v.val % 16)]

/-- Go's `hex.EncodeToString(src)`: the lowercase hexadecimal encoding of `src`,
two characters per byte. -/
def hexEncodeToString (src : List Byte) : String :=
  String.mk (src.flatMap hexPair)

/-- The value of a hexadecimal digit, as `fromHexChar` of `encoding/hex`
computes it; `none` for any other character. -/
def fromHexChar (c : Char) : Option Nat :=
  if 48 ≤ c.toNat ∧ c.toNat ≤ 57 then some (c.toNat - 48)
  else if 97 ≤ c.toNat ∧ c.toNat ≤ 102 then some (c.toNat - 97 + 10)
  else if 65 ≤ c.toNat ∧ c.toNat ≤ 70 then some (c.toNat - 65 + 10)
  else none

/-- Hex-decoding of a list of characters, two characters per byte, as
`hex.Decode` does; `none` on an odd length or a character that is no
hexadecimal digit. -/
def hexDecodeChars : List Char → Option (List Byte)
  | [] => some []
  | [_] => none
  | p :: q :: rest =>
    match fromHexChar p, fromHexChar q, hexDecodeChars rest with
    | some a, some b, some bs => some (Fin.ofNat (a * 16 + b) :: bs)
    | _, _, _ => none

/-- Go's `hex.DecodeString(s)`. -/
def hexDecodeString (s : String) : Option (List Byte) := hexDecodeChars s.data

/-! ## Trace-ID formatting -/

/-- The loop `for i := 0; i < 8; i++ { if traceID[i] != 0 { return false } }` of
`shouldTrimTraceId`, with `n` iterations left from index `i` on. -/
def shouldTrimTraceIdFrom (traceID : List Byte) : Nat → Nat → Outcome Bool
  | 0, _ => .ret true
  | n + 1, i =>
    match traceID[i]? with
    | none => .panic
    | some b => if b ≠ 0 then .ret false else shouldTrimTraceIdFrom traceID n (i + 1)

def shouldTrimTraceId (traceID : List Byte) : Outcome Bool :=
  shouldTrimTraceIdFrom traceID 8 0

/-- The buffer `encoded` of `BytesToTraceID` after `hex.Encode(encoded, traceID)`. -/
def bytesToTraceIDEncoded (traceID : List Byte) : Outcome (List Char) :=
  if traceID.length = traceIDLongLength then
    (shouldTrimTraceId traceID).bind fun trim =>
      if trim then
        if traceIDShortLength ≤ traceID.length then
          hexEncode (makeBytes 16) (traceID.drop traceIDShortLength)
        else .panic
      else hexEncode (makeBytes 32) traceID
  else if traceID.length = traceIDShortLength then
    hexEncode (makeBytes 16) traceID
  else
    hexEncode (makeBytes (traceID.length * 2)) traceID

def BytesToTraceID (traceID : List Byte) : Outcome String :=
  (bytesToTraceIDEncoded traceID).bind fun encoded => .ret (String.mk encoded)

/-! ## Status reconciliation -/

/-- The message `trace.Status`: the current code, the deprecated code and the
message. Both codes are protobuf enums, that is, any `int32`. -/
structure Status where
  Code : Int
  DeprecatedCode : Int
  Message : String
  deriving Repr, DecidableEq

/-- The enum value `trace.Status_STATUS_CODE_UNSET`. -/
def Status_STATUS_CODE_UNSET : Int := 0

/-- The enum value `trace.Status_STATUS_CODE_OK`. -/
def Status_STATUS_CODE_OK : Int := 1

/-- The enum value `trace.Status_STATUS_CODE_ERROR`. -/
def Status_STATUS_CODE_ERROR : Int := 2

/-- The enum value `trace.Status_DEPRECATED_STATUS_CODE_OK`. -/
def Status_DEPRECATED_STATUS_CODE_OK : Int := 0

/-- The function `getSpanStatusCode`; `none` is the nil status. -/
def getSpanStatusCode (status : Option Status) : Int :=
  match status with
  | none => Status_STATUS_CODE_UNSET
  | some status =>
    if status.Code = Status_STATUS_CODE_UNSET then
      if status.DeprecatedCode = Status_DEPRECATED_STATUS_CODE_OK then
        Status_STATUS_CODE_UNSET
      else Status_STATUS_CODE_ERROR
    else status.Code

/-! ## Span kind -/

/-- The enum value `trace.Span_SPAN_KIND_UNSPECIFIED`. -/
def Span_SPAN_KIND_UNSPECIFIED : Int := 0

/-- The enum value `trace.Span_SPAN_KIND_INTERNAL`. -/
def Span_SPAN_KIND_INTERNAL : Int := 1

/-- The enum value `trace.Span_SPAN_KIND_SERVER`. -/
def Span_SPAN_KIND_SERVER : Int := 2

/-- The enum value `trace.Span_SPAN_KIND_CLIENT`. -/
def Span_SPAN_KIND_CLIENT : Int := 3

/-- The enum value `trace.Span_SPAN_KIND_PRODUCER`. -/
def Span_SPAN_KIND_PRODUCER : Int := 4

/-- The enum value `trace.Span_SPAN_KIND_CONSUMER`. -/
def Span_SPAN_KIND_CONSUMER : Int := 5

/-- The function `getSpanKind`: the `switch` over the enum, whose
`UNSPECIFIED` case falls through to `default`. -/
def getSpanKind (kind : Int) : String :=
  if kind = Span_SPAN_KIND_CLIENT then "client"
  else if kind = Span_SPAN_KIND_SERVER then "server"
  else if kind = Span_SPAN_KIND_PRODUCER then "producer"
  else if kind = Span_SPAN_KIND_CONSUMER then "consumer"
  else if kind = Span_SPAN_KIND_INTERNAL then "internal"
  else "unspecified"

/-! ## Machine integers and floats -/

/-- The conversion `int32(i)` of a Go integer: the low 32 bits, read as a
signed number. -/
def toInt32 (i : Int) : Int := (i + 2147483648) % 4294967296 - 2147483648

/-- The conversion `int64(n)` of a `uint64`: the 64 bits read as a signed
number. -/
def toInt64 (n : Nat) : Int :=
  ((n : Int) + 9223372036854775808) % 18446744073709551616 - 9223372036854775808

/-- The difference `a - b` of two `uint64`: it wraps around modulo `2^64`. -/
def uint64Sub (a b : Nat) : Nat := (((a : Int) - (b : Int)) % 18446744073709551616).toNat

/-- A `float64` value, kept as the expression that computes it: the embedding
gives the expression no numeric value, so that no rounding is modelled. -/
inductive Float64 where
  /-- A double given by its 64 bits (a decoded attribute value). -/
  | ofBits (bits : Nat)
  /-- The conversion `float64(n)` of a `uint64`. -/
  | ofUInt64 (n : Nat)
  /-- The conversion `float64(i)` of a signed integer. -/
  | ofInt (i : Int)
  /-- The quotient `a / b`. -/
  | div (a b : Float64)
  deriving Repr, DecidableEq

/-- The constant `time.Millisecond`, a `time.Duration` in nanoseconds. -/
def timeMillisecond : Int := 1000000

/-! ## Go values and maps -/

/-- A value of type `interface{}` as the translator stores it in a map: the
dynamic type is the constructor. -/
inductive Value where
  | nil
  | string (s : String)
  | bool (b : Bool)
  | int (i : Int)
  | int32 (i : Int)
  | int64 (i : Int)
  | float64 (f : Float64)
  /-- A `trace.Status_StatusCode`, a named type of its own. -/
  | statusCode (c : Int)
  | bytes (b : List Byte)
  | slice (vs : List Value)
  | kvlist (kvs : List (String × Value))
  /-- A `map[string]interface{}`: the address of the map in the heap. -/
  | mapRef (addr : Nat)

/-- The contents of a `map[string]interface{}`: at most one entry per key. -/
abbrev AttrMap := List (String × Value)

/-- The lookup `m[key]` with its `ok` flag: `none` when the key is absent. -/
def mapGet : AttrMap → String → Option Value
  | [], _ => none
  | (k, v) :: m, key => if k = key then some v else mapGet m key

/-- The assignment `m[key] = val`. -/
def mapSet : AttrMap → String → Value → AttrMap
  | [], key, val => [(key, val)]
  | (k, v) :: m, key, val => if k = key then (k, val) :: m else (k, v) :: mapSet m key val

/-- The statement `delete(m, key)`. -/
def mapDelete : AttrMap → String → AttrMap
  | [], _ => []
  | (k, v) :: m, key => if k = key then mapDelete m key else (k, v) :: mapDelete m key

/-- The maps allocated by `make`, by address. -/
abbrev Heap := List AttrMap

/-- The call `make(map[string]interface{})`: a new empty map and its address. -/
def Heap.alloc (h : Heap) : Heap × Nat := (h ++ [[]], h.length)

/-- The contents of the map at an address. -/
def Heap.get (h : Heap) (addr : Nat) : AttrMap := h.getD addr []

/-- The heap after the map at an address got new contents. -/
def Heap.put (h : Heap) (addr : Nat) (m : AttrMap) : Heap := h.set addr m

/-! ## The decoded request (OTLP protobuf messages) -/

/-- The message `common.AnyValue`. -/
inductive AnyValue where
  | stringValue (v : String)
  | boolValue (v : Bool)
  | intValue (v : Int)
  | doubleValue (bits : Nat)
  | arrayValue (values : List AnyValue)
  | kvlistValue (values : List (String × Option AnyValue))
  | bytesValue (v : List Byte)

/-- The message `common.KeyValue`; the value is a pointer and may be nil. -/
structure KeyValue where
  Key : String
  Value : Option AnyValue

/-- The message `resource.Resource`. -/
structure Resource where
  Attributes : List KeyValue

/-- The message `common.InstrumentationLibrary`. -/
structure InstrumentationLibrary where
  Name : String
  Version : String

/-- The message `trace.Span_Event`. `Attributes` is tested against nil by the
translator, so nil (`none`) is kept apart from an empty slice. -/
structure Span_Event where
  TimeUnixNano : Nat
  Name : String
  Attributes : Option (List KeyValue)

/-- The message `trace.Span_Link`. -/
structure Span_Link where
  TraceId : List Byte
  SpanId : List Byte
  Attributes : Option (List KeyValue)

/-- The message `trace.Span`. The timestamps are `uint64`; `ParentSpanId`,
`Attributes` and `Status` are tested against nil by the translator. -/
structure Span where
  TraceId : List Byte
  SpanId : List Byte
  ParentSpanId : Option (List Byte)
  Name : String
  Kind : Int
  StartTimeUnixNano : Nat
  EndTimeUnixNano : Nat
  Attributes : Option (List KeyValue)
  Events : List Span_Event
  Links : List Span_Link
  Status : Option Status

/-- The message `trace.InstrumentationLibrarySpans`. -/
structure InstrumentationLibrarySpans where
  InstrumentationLibrary : Option InstrumentationLibrary
  Spans : List Span

/-- The message `trace.ResourceSpans`. -/
structure ResourceSpans where
  Resource : Option Resource
  InstrumentationLibrarySpans : List InstrumentationLibrarySpans

/-- The message `collectorTrace.ExportTraceServiceRequest`. -/
structure ExportTraceServiceRequest where
  ResourceSpans : List ResourceSpans

/-! ## Request context, errors and the libraries -/

/-- The fields of `RequestInfo` that the translator reads. -/
structure RequestInfo where
  Dataset : String
  ContentEncoding : String

/-- A Go `error` value. `ErrFailedParseBody` is the package's parse-failure
error; every error of a library is an `other`. -/
inductive GoError where
  | ErrFailedParseBody
  | other (msg : String)
  deriving Repr, DecidableEq

/-- An `io.Reader` as `ioutil.ReadAll` sees it: the bytes it yields, or the
error the read ends with. -/
structure Reader where
  readAll : Except GoError (List Byte)

/-- What the translator needs from outside the repository.

* `gzipNewReader b` is `gzip.NewReader` on a reader over the bytes `b`. The
  standard library returns `nil, err` when the gzip header cannot be read, and
  a reader otherwise: the two cases of `Except`.
* `zstdNewReader b` is `zstd.NewReader` on a reader over `b`, called without
  options: it returns a decoder that is not nil, together with an error or nil.
* `unmarshal` is `proto.Unmarshal` into a fresh request.
* `sizeRequest` and `sizeResourceSpans` are `proto.Size`.
* `addAttributesToMap attrs kvs` is the contents of the map `attrs` after the
  package's `addAttributesToMap(attrs, kvs)`, which is defined in another file.
* `atoi` is `strconv.Atoi`, `none` when it returns an error. -/
structure Env where
  gzipNewReader : List Byte → Except GoError Reader
  zstdNewReader : List Byte → Reader × Option GoError
  unmarshal : List Byte → Except GoError ExportTraceServiceRequest
  sizeRequest : ExportTraceServiceRequest → Nat
  sizeResourceSpans : ResourceSpans → Nat
  addAttributesToMap : AttrMap → List KeyValue → AttrMap
  atoi : String → Option Int

/-! ## Sample-rate extraction -/

def getSampleRateKey (attrs : AttrMap) : String :=
  if (mapGet attrs "sampleRate").isSome then "sampleRate"
  else if (mapGet attrs "SampleRate").isSome then "SampleRate"
  else ""

/-- The type switch of `getSampleRate` on the value found under the key; Go's
`int` is taken to be 64 bits wide. -/
def sampleRateOf (env : Env) (sampleRateVal : Option Value) : Int :=
  match sampleRateVal with
  | some (.string v) =>
    match env.atoi v with
    | some i => if i < MaxInt32 then toInt32 i else MaxInt32
    | none => defaultSampleRate
  | some (.int32 v) => v
  | some (.int v) => if v < MaxInt32 then toInt32 v else MaxInt32
  | some (.int64 v) => if v < MaxInt32 then toInt32 v else MaxInt32
  | _ => defaultSampleRate

/-- The function `getSampleRate`: the rate it returns and the contents of the map
`attrs` after the call. -/
def getSampleRate (env : Env) (attrs : AttrMap) : Int × AttrMap :=
  let sampleRateKey := getSampleRateKey attrs
  if sampleRateKey = "" then (zeroSampleRate, attrs)
  else
    let sampleRate := sampleRateOf env (mapGet attrs sampleRateKey)
    (sampleRate, mapDelete attrs sampleRateKey)

/-! ## The translated result -/

/-- The struct `Event`. `Timestamp` is the instant in nanoseconds since the Unix
epoch; `Attributes` is the contents of the map the event points to. -/
structure Event where
  Attributes : AttrMap
  Timestamp : Int
  SampleRate : Int

/-- The struct `Batch`. -/
structure Batch where
  Dataset : String
  SizeBytes : Nat
  Events : List Event

/-- The struct `TranslateTraceRequestResult`, together with the heap that holds
the maps its events refer to (`Value.mapRef`), as it is when the call returns. -/
structure TranslateTraceRequestResult where
  RequestSize : Nat
  Batches : List Batch
  heap : Heap

/-! ## The span translator -/

/-- The loop `for _, sevent := range span.Events` of `TranslateTraceReq`:
every span-event with attributes is flattened into the map at `eventAttributes`. -/
def spanEventLoop (env : Env) (eventAttributes : Nat) : List Span_Event → Heap → Heap
  | [], heap => heap
  | sevent :: rest, heap =>
    match sevent.Attributes with
    | some attrs =>
      spanEventLoop env eventAttributes rest
        (heap.put eventAttributes (env.addAttributesToMap (heap.get eventAttributes) attrs))
    | none => spanEventLoop env eventAttributes rest heap

/-- The map literal `eventAttrs` of `TranslateTraceReq`. -/
def eventAttrsLiteral (span : Span) (traceID spanID spanKind : String) : AttrMap :=
  [ ("traceTraceID", .string traceID),
    ("traceSpanID", .string spanID),
    ("type", .string spanKind),
    ("spanKind", .string spanKind),
    ("spanName", .string span.Name),
    ("durationMs",
      .float64 (.div (.ofUInt64 (uint64Sub span.EndTimeUnixNano span.StartTimeUnixNano))
        (.ofInt timeMillisecond))),
    ("startTime", .int64 (toInt64 span.StartTimeUnixNano)),
    ("endTime", .int64 (toInt64 span.EndTimeUnixNano)),
    ("statusCode", .statusCode (getSpanStatusCode span.Status)),
    ("spanNumLinks", .int span.Links.length),
    ("spanNumEvents", .int span.Events.length) ]

/-- The body of the loop over the spans of `TranslateTraceReq`, for one span:
the event appended to `events` and the heap afterwards. `resourceAttributes` is
the address held by `traceAttributes["resourceAttributes"]`; the two maps made
for the span are `traceAttributes["spanAttributes"]` and
`traceAttributes["eventAttributes"]`. -/
def translateSpan (env : Env) (resourceAttributes : Nat) (heap : Heap) (span : Span) :
    Outcome (Event × Heap) :=
  let (heap, spanAttributes) := heap.alloc
  let (heap, eventAttributes) := heap.alloc
  (BytesToTraceID span.TraceId).bind fun traceID =>
    let spanID := hexEncodeToString span.SpanId
    let spanKind := getSpanKind span.Kind
    let eventAttrs := eventAttrsLiteral span traceID spanID spanKind
    let eventAttrs :=
      match span.ParentSpanId with
      | some parent => mapSet eventAttrs "traceParentID" (.string (hexEncodeToString parent))
      | none => eventAttrs
    let eventAttrs :=
      if getSpanStatusCode span.Status = Status_STATUS_CODE_ERROR then
        mapSet eventAttrs "error" (.bool true)
      else mapSet eventAttrs "error" (.bool false)
    let eventAttrs :=
      match span.Status with
      | some status =>
        if status.Message.utf8ByteSize > 0 then
          mapSet eventAttrs "statusMessage" (.string status.Message)
        else eventAttrs
      | none => eventAttrs
    let heap :=
      match span.Attributes with
      | some attrs =>
        heap.put spanAttributes (env.addAttributesToMap (heap.get spanAttributes) attrs)
      | none => heap
    let eventAttrs := mapSet eventAttrs "resourceAttributes" (.mapRef resourceAttributes)
    let eventAttrs := mapSet eventAttrs "spanAttributes" (.mapRef spanAttributes)
    let heap := spanEventLoop env eventAttributes span.Events heap
    let eventAttrs := mapSet eventAttrs "eventAttributes" (.mapRef eventAttributes)
    let eventAttrs := mapSet eventAttrs "time" (.int64 (toInt64 span.StartTimeUnixNano))
    let timestamp := toInt64 span.StartTimeUnixNano
    let (sampleRate, eventAttrs) := getSampleRate env eventAttrs
    .ret ({ Attributes := eventAttrs, Timestamp := timestamp, SampleRate := sampleRate }, heap)

/-- The loop `for _, span := range librarySpan.GetSpans()`: each event is
appended to `events`. -/
def spanLoop (env : Env) (resourceAttributes : Nat) :
    List Span → List Event → Heap → Outcome (List Event × Heap)
  | [], events, heap => .ret (events, heap)
  | span :: rest, events, heap =>
    (translateSpan env resourceAttributes heap span).bind fun (event, heap) =>
      spanLoop env resourceAttributes rest (events ++ [event]) heap

/-- The writes of `library.name` and `library.version` into the map at
`resourceAttributes`, at the head of the loop over the library span groups. -/
def addLibrary (resourceAttributes : Nat) (library : Option InstrumentationLibrary)
    (heap : Heap) : Heap :=
  match library with
  | some library =>
    let heap :=
      if library.Name.utf8ByteSize > 0 then
        heap.put resourceAttributes
          (mapSet (heap.get resourceAttributes) "library.name" (.string library.Name))
      else heap
    if library.Version.utf8ByteSize > 0 then
      heap.put resourceAttributes
        (mapSet (heap.get resourceAttributes) "library.version" (.string library.Version))
    else heap
  | none => heap

/-- The loop `for _, librarySpan := range resourceSpan.InstrumentationLibrarySpans`. -/
def librarySpanLoop (env : Env) (resourceAttributes : Nat) :
    List InstrumentationLibrarySpans → List Event → Heap → Outcome (List Event × Heap)
  | [], events, heap => .ret (events, heap)
  | librarySpan :: rest, events, heap =>
    let heap := addLibrary resourceAttributes librarySpan.InstrumentationLibrary heap
    (spanLoop env resourceAttributes librarySpan.Spans events heap).bind fun (events, heap) =>
      librarySpanLoop env resourceAttributes rest events heap

/-- The body of the loop over `request.ResourceSpans`, for one resource-span
group: the batch appended to `batches` and the heap afterwards. -/
def translateResourceSpan (env : Env) (ri : RequestInfo) (heap : Heap)
    (resourceSpan : ResourceSpans) : Outcome (Batch × Heap) :=
  let (heap, resourceAttributes) := heap.alloc
  let heap :=
    match resourceSpan.Resource with
    | some resource =>
      heap.put resourceAttributes
        (env.addAttributesToMap (heap.get resourceAttributes) resource.Attributes)
    | none => heap
  let dataset := ri.Dataset
  (librarySpanLoop env resourceAttributes resourceSpan.InstrumentationLibrarySpans [] heap).bind
    fun (events, heap) =>
      .ret ({ Dataset := dataset, SizeBytes := env.sizeResourceSpans resourceSpan,
              Events := events }, heap)

/-- The loop `for _, resourceSpan := range request.ResourceSpans`. -/
def resourceSpanLoop (env : Env) (ri : RequestInfo) :
    List ResourceSpans → List Batch → Heap → Outcome (List Batch × Heap)
  | [], batches, heap => .ret (batches, heap)
  | resourceSpan :: rest, batches, heap =>
    (translateResourceSpan env ri heap resourceSpan).bind fun (batch, heap) =>
      resourceSpanLoop env ri rest (batches ++ [batch]) heap

/-- The function `TranslateTraceReq`, for a request that is not nil: the pair
of the result pointer (`none` for nil) and the error (`none` for nil). -/
def TranslateTraceReq (env : Env) (request : ExportTraceServiceRequest) (ri : RequestInfo) :
    Outcome (Option TranslateTraceRequestResult × Option GoError) :=
  (resourceSpanLoop env ri request.ResourceSpans [] []).bind fun (batches, heap) =>
    .ret (some { RequestSize := env.sizeRequest request, Batches := batches, heap := heap },
      none)

/-! ## The body decoder -/

/-- The rest of `parseOTLPBody` once `reader` is chosen: `ioutil.ReadAll(reader)`
and `proto.Unmarshal`. -/
def readAndUnmarshal (env : Env) (reader : Reader) :
    Outcome (Option ExportTraceServiceRequest × Option GoError) :=
  match reader.readAll with
  | .error err => .ret (none, some err)
  | .ok bytes =>
    match env.unmarshal bytes with
    | .error err => .ret (none, some err)
    | .ok request => .ret (some request, none)

/-- The deferred call `gzipReader.Close()`, run when `parseOTLPBody` leaves with
`result`. The method is `func (z *Reader) Close() error { return
z.decompressor.Close() }`: on a nil `gzipReader` it dereferences nil and
panics; otherwise its error is dropped. -/
def deferredGzipClose {α : Type} (gzipReader : Option Reader) (result : Outcome α) :
    Outcome α :=
  match gzipReader with
  | none => .panic
  | some _ => result

/-- The function `parseOTLPBody`. `body` is the request body as
`ioutil.ReadAll(body)` reads it; the deferred `body.Close()` has no effect on the
result. In the `"gzip"` case the source defers `gzipReader.Close()` before it
tests `err`. -/
def parseOTLPBody (env : Env) (body : Reader) (contentEncoding : String) :
    Outcome (Option ExportTraceServiceRequest × Option GoError) :=
  match body.readAll with
  | .error err => .ret (none, some err)
  | .ok bodyBytes =>
    if contentEncoding = "gzip" then
      match env.gzipNewReader bodyBytes with
      | .error err => deferredGzipClose none (.ret (none, some err))
      | .ok gzipReader => deferredGzipClose (some gzipReader) (readAndUnmarshal env gzipReader)
    else if contentEncoding = "zstd" then
      match env.zstdNewReader bodyBytes with
      | (_, some err) => .ret (none, some err)
      | (zstdReader, none) => readAndUnmarshal env zstdReader
    else readAndUnmarshal env { readAll := .ok bodyBytes }

/-- The function `TranslateTraceReqFromReader`. -/
def TranslateTraceReqFromReader (env : Env) (body : Reader) (ri : RequestInfo) :
    Outcome (Option TranslateTraceRequestResult × Option GoError) :=
  (parseOTLPBody env body ri.ContentEncoding).bind fun (request, err) =>
    match err with
    | some _ => .ret (none, some .ErrFailedParseBody)
    | none =>
      match request with
      | some request => TranslateTraceReq env request ri
      | none => .panic

/-! ## Definitions used to state the properties -/

/-- All spans of a resource-span group: the concatenation, in input order, of
the spans of its instrumentation-library span groups. -/
def spansOf (resourceSpan : ResourceSpans) : List Span :=
  resourceSpan.InstrumentationLibrarySpans.flatMap fun librarySpan => librarySpan.Spans

/-- The number of spans of a request, over all resource-span groups. -/
def spanCount (request : ExportTraceServiceRequest) : Nat :=
  (request.ResourceSpans.map fun resourceSpan => (spansOf resourceSpan).length).sum

/-- The number of events of a result, over all batches. -/
def eventCount (result : TranslateTraceRequestResult) : Nat :=
  (result.Batches.map fun batch => batch.Events.length).sum

/-- The contents of the map `eventAttrs` that `translateSpan` assembles for a
span, before `getSampleRate` looks at it: the statements of the loop body that
write to `eventAttrs`, in source order. The three addresses are those of the
maps of `traceAttributes`. -/
def spanEventAttrs (span : Span) (traceID : String)
    (resourceAttributes spanAttributes eventAttributes : Nat) : AttrMap :=
  let eventAttrs :=
    eventAttrsLiteral span traceID (hexEncodeToString span.SpanId) (getSpanKind span.Kind)
  let eventAttrs :=
    match span.ParentSpanId with
    | some parent => mapSet eventAttrs "traceParentID" (.string (hexEncodeToString parent))
    | none => eventAttrs
  let eventAttrs :=
    if getSpanStatusCode span.Status = Status_STATUS_CODE_ERROR then
      mapSet eventAttrs "error" (.bool true)
    else mapSet eventAttrs "error" (.bool false)
  let eventAttrs :=
    match span.Status with
    | some status =>
      if status.Message.utf8ByteSize > 0 then
        mapSet eventAttrs "statusMessage" (.string status.Message)
      else eventAttrs
    | none => eventAttrs
  let eventAttrs := mapSet eventAttrs "resourceAttributes" (.mapRef resourceAttributes)
  let eventAttrs := mapSet eventAttrs "spanAttributes" (.mapRef spanAttributes)
  let eventAttrs := mapSet eventAttrs "eventAttributes" (.mapRef eventAttributes)
  mapSet eventAttrs "time" (.int64 (toInt64 span.StartTimeUnixNano))

/-- The heap after the loop body of `translateSpan` ran for a span: the two maps
made for the span, filled from the span's attributes and from its span-events. -/
def spanHeap (env : Env) (heap : Heap) (span : Span) : Heap :=
  let spanAttributes := heap.length
  let eventAttributes := heap.length + 1
  let heap := (heap ++ [[]]) ++ [[]]
  let heap :=
    match span.Attributes with
    | some attrs =>
      heap.put spanAttributes (env.addAttributesToMap (heap.get spanAttributes) attrs)
    | none => heap
  spanEventLoop env eventAttributes span.Events heap

/-- The event `event` is the one the translator emits for `span`, with
`resourceAttributes` the address of the resource map of the span's group. -/
def IsEventOf (resourceAttributes : Nat) (span : Span) (event : Event) : Prop :=
  ∃ traceID spanAttributes eventAttributes,
    BytesToTraceID span.TraceId = .ret traceID ∧
    event.Attributes =
      spanEventAttrs span traceID resourceAttributes spanAttributes eventAttributes ∧
    event.Timestamp = toInt64 span.StartTimeUnixNano ∧
    event.SampleRate = zeroSampleRate

/-- The batch `batch` is the one the translator emits for `resourceSpan`. -/
def IsBatchOf (env : Env) (ri : RequestInfo) (resourceSpan : ResourceSpans) (batch : Batch) :
    Prop :=
  batch.Dataset = ri.Dataset ∧
  batch.SizeBytes = env.sizeResourceSpans resourceSpan ∧
  ∃ resourceAttributes,
    List.Forall₂ (IsEventOf resourceAttributes) (spansOf resourceSpan) batch.Events

/-! ## The attribute flattener and a test environment -/

mutual
/-- Modelled from the spec: the native value of a typed wire value, the
conversion that `addAttributesToMap` (defined outside `trace.go`) applies:
"converting typed wire values to their closest native scalar/composite
representation". -/
def nativeValue : AnyValue → Value
  | .stringValue v => .string v
  | .boolValue v => .bool v
  | .intValue v => .int64 v
  | .doubleValue bits => .float64 (.ofBits bits)
  | .arrayValue values => .slice (nativeValues values)
  | .kvlistValue values => .kvlist (nativePairs values)
  | .bytesValue v => .bytes v
/-- Modelled from the spec: the native values of a list of wire values. -/
def nativeValues : List AnyValue → List Value
  | [] => []
  | v :: rest => nativeValue v :: nativeValues rest
/-- Modelled from the spec: the native values of a nested key/value list. -/
def nativePairs : List (String × Option AnyValue) → List (String × Value)
  | [] => []
  | (k, none) :: rest => (k, .nil) :: nativePairs rest
  | (k, some v) :: rest => (k, nativeValue v) :: nativePairs rest
end

/-- Modelled from the spec: the attribute flattener `addAttributesToMap`, which
is defined outside `trace.go`: "for each pair, insert `key → nativeValue` into
the target mapping"; "later duplicate keys in the same list overwrite earlier
ones". -/
def flattenAttributes : AttrMap → List KeyValue → AttrMap
  | attrs, [] => attrs
  | attrs, kv :: rest =>
    match kv.Value with
    | some v => flattenAttributes (mapSet attrs kv.Key (nativeValue v)) rest
    | none => flattenAttributes (mapSet attrs kv.Key .nil) rest

/-- The header test of `gzip.NewReader` (`readHeader` of `compress/gzip`): the
error it returns when fewer than ten bytes can be read, or when the first three
bytes are not `0x1f 0x8b 0x08`; `none` when both tests pass. -/
def gzipHeaderError (b : List Byte) : Option GoError :=
  if b.length = 0 then some (.other "EOF")
  else if b.length < 10 then some (.other "unexpected EOF")
  else if b[0]? ≠ some 31 ∨ b[1]? ≠ some 139 ∨ b[2]? ≠ some 8 then
    some (.other "gzip: invalid header")
  else none

/-- The digits loop of `strconv.Atoi`: `n = n*10 + int(ch - '0')` for every
character, `none` at a character that is no decimal digit. -/
def atoiDigits : List Char → Nat → Option Nat
  | [], n => some n
  | ch :: rest, n =>
    if 48 ≤ ch.toNat ∧ ch.toNat ≤ 57 then atoiDigits rest (n * 10 + (ch.toNat - 48))
    else none

/-- Go's `strconv.Atoi` on a 64-bit platform: an optional sign, then one
decimal digit or more, and a value that fits `int64`; `none` when `Atoi`
returns an error (syntax or range). -/
def strconvAtoi (s : String) : Option Int :=
  let (negative, digits) :=
    match s.data with
    | '-' :: rest => (true, rest)
    | '+' :: rest => (false, rest)
    | all => (false, all)
  match digits with
  | [] => none
  | ch :: rest =>
    match atoiDigits (ch :: rest) 0 with
    | none => none
    | some n =>
      let i : Int := if negative then -(n : Int) else (n : Int)
      if -9223372036854775808 ≤ i ∧ i ≤ 9223372036854775807 then some i else none

/-- An environment to run the definitions on concrete inputs. Of gzip it has the
header test only, and a stream that passes it fails at the first read; zstd
accepts nothing; `proto.Unmarshal` accepts the empty message only; `proto.Size`
counts groups. The properties below are stated for every environment; this one
shows that their hypotheses can be met. -/
def testEnv : Env where
  gzipNewReader b :=
    match gzipHeaderError b with
    | some err => .error err
    | none => .ok { readAll := .error (.other "flate: corrupt input") }
  zstdNewReader _ := ({ readAll := .error (.other "invalid input") }, none)
  unmarshal b := if b = [] then .ok { ResourceSpans := [] } else .error (.other "proto: cannot parse")
  sizeRequest request := request.ResourceSpans.length
  sizeResourceSpans resourceSpan := resourceSpan.InstrumentationLibrarySpans.length
  addAttributesToMap := flattenAttributes
  atoi := strconvAtoi

/-! ## Definitions used to state the properties of the nested maps -/

/-- The sixteen keys that the translator writes for every span. -/
def baseKeys : List String :=
  ["traceTraceID", "traceSpanID", "type", "spanKind", "spanName", "durationMs", "startTime",
    "endTime", "statusCode", "spanNumLinks", "spanNumEvents", "error", "resourceAttributes",
    "spanAttributes", "eventAttributes", "time"]

/-- The contents of the map at `resourceAttributes` after the writes of
`library.name` and `library.version` for one library span group (`addLibrary`),
from its contents `attrs` before. -/
def libraryAttrs (attrs : AttrMap) (library : Option InstrumentationLibrary) : AttrMap :=
  match library with
  | some library =>
    let attrs :=
      if library.Name.utf8ByteSize > 0 then mapSet attrs "library.name" (.string library.Name)
      else attrs
    if library.Version.utf8ByteSize > 0 then
      mapSet attrs "library.version" (.string library.Version)
    else attrs
  | none => attrs

/-- The contents of the map `traceAttributes["resourceAttributes"]` of a
resource-span group when its loop over the library span groups ends: the
flattened resource attributes, then the library writes of every library span
group in input order. -/
def resourceAttrsOf (env : Env) (resourceSpan : ResourceSpans) : AttrMap :=
  resourceSpan.InstrumentationLibrarySpans.foldl
    (fun attrs librarySpan => libraryAttrs attrs librarySpan.InstrumentationLibrary)
    (match resourceSpan.Resource with
      | some resource => env.addAttributesToMap [] resource.Attributes
      | none => [])

/-- The flattening of a span's own attribute list into an empty map. -/
def spanAttrsOf (env : Env) (span : Span) : AttrMap :=
  match span.Attributes with
  | some attrs => env.addAttributesToMap [] attrs
  | none => []

/-- The flattening of the attribute lists of span-events, in order, into the
map `attrs`. -/
def eventAttrsFrom (env : Env) : List Span_Event → AttrMap → AttrMap
  | [], attrs => attrs
  | sevent :: rest, attrs =>
    match sevent.Attributes with
    | some kvs => eventAttrsFrom env rest (env.addAttributesToMap attrs kvs)
    | none => eventAttrsFrom env rest attrs

/-- The flattening of the attribute lists of a span's span-events, in order,
into one empty map. -/
def eventAttrsOf (env : Env) (span : Span) : AttrMap := eventAttrsFrom env span.Events []

/-- The sub-map of an attribute map under a key: the contents, in `heap`, of the
map that the value under the key refers to; `none` when the key is absent or
holds no map. -/
def subMap (heap : Heap) (attrs : AttrMap) (key : String) : Option AttrMap :=
  match mapGet attrs key with
  | some (.mapRef addr) => some (heap.get addr)
  | _ => none

/-- The heap `heap2` has every map of `heap` at its address, unchanged except
perhaps for the map at `addr`. -/
def Heap.ExtendsOff (addr : Nat) (heap heap2 : Heap) : Prop :=
  heap.length ≤ heap2.length ∧ ∀ a, a < heap.length → a ≠ addr → heap2.get a = heap.get a

/-- The heap `heap2` has every map of `heap` at its address, unchanged. -/
def Heap.Extends (heap heap2 : Heap) : Prop :=
  heap.length ≤ heap2.length ∧ ∀ a, a < heap.length → heap2.get a = heap.get a

/-- The event `event` is the one the translator emits for `span`, and in `heap`
its two own maps hold the flattened attributes of the span and of its
span-events. -/
def IsEventIn (env : Env) (heap : Heap) (resourceAttributes : Nat) (span : Span)
    (event : Event) : Prop :=
  ∃ traceID spanAttributes eventAttributes,
    BytesToTraceID span.TraceId = .ret traceID ∧
    event.Attributes =
      spanEventAttrs span traceID resourceAttributes spanAttributes eventAttributes ∧
    event.Timestamp = toInt64 span.StartTimeUnixNano ∧
    event.SampleRate = zeroSampleRate ∧
    spanAttributes < heap.length ∧ spanAttributes ≠ resourceAttributes ∧
    eventAttributes < heap.length ∧ eventAttributes ≠ resourceAttributes ∧
    heap.get spanAttributes = spanAttrsOf env span ∧
    heap.get eventAttributes = eventAttrsOf env span

/-- The batch `batch` is the one the translator emits for `resourceSpan`, and in
`heap` the resource map of the group holds `resourceAttrsOf`. -/
def IsBatchIn (env : Env) (ri : RequestInfo) (heap : Heap) (resourceSpan : ResourceSpans)
    (batch : Batch) : Prop :=
  batch.Dataset = ri.Dataset ∧
  batch.SizeBytes = env.sizeResourceSpans resourceSpan ∧
  ∃ resourceAttributes,
    resourceAttributes < heap.length ∧
    heap.get resourceAttributes = resourceAttrsOf env resourceSpan ∧
    List.Forall₂ (IsEventIn env heap resourceAttributes) (spansOf resourceSpan) batch.Events

/-- Every event of `result`, taken with the span it was emitted for and the
resource-span group of that span, satisfies `P`: the batches pair off with the
resource-span groups, and the events of a batch with the spans of its group. -/
def EachEvent (request : ExportTraceServiceRequest) (result : TranslateTraceRequestResult)
    (P : ResourceSpans → Span → Event → Prop) : Prop :=
  List.Forall₂
    (fun resourceSpan batch => List.Forall₂ (P resourceSpan) (spansOf resourceSpan) batch.Events)
    request.ResourceSpans result.Batches

/-- What the translator establishes for the event of a span: its top-level map,
timestamp and sample rate, and the contents in `heap` of the three maps it
refers to. -/
def EventFacts (env : Env) (heap : Heap) (resourceSpan : ResourceSpans) (span : Span)
    (event : Event) : Prop :=
  ∃ traceID resourceAttributes spanAttributes eventAttributes,
    BytesToTraceID span.TraceId = .ret traceID ∧
    event.Attributes =
      spanEventAttrs span traceID resourceAttributes spanAttributes eventAttributes ∧
    event.Timestamp = toInt64 span.StartTimeUnixNano ∧
    event.SampleRate = zeroSampleRate ∧
    heap.get resourceAttributes = resourceAttrsOf env resourceSpan ∧
    heap.get spanAttributes = spanAttrsOf env span ∧
    heap.get eventAttributes = eventAttrsOf env span

/-- The attribute lists of the span-events of a span, concatenated in order. -/
def spanEventAttributes (span : Span) : List KeyValue :=
  span.Events.flatMap fun sevent => sevent.Attributes.getD []

/-- The native value that `flattenAttributes` stores for a pair. -/
def nativeOf (kv : KeyValue) : Value :=
  match kv.Value with
  | some v => nativeValue v
  | none => .nil

/-- The native value of the last pair with the key `key` in a list of pairs;
`none` when no pair has the key. -/
def lastValue : List KeyValue → String → Option Value
  | [], _ => none
  | kv :: rest, key =>
    match lastValue rest key with
    | some v => some v
    | none => if kv.Key = key then some (nativeOf kv) else none

/-- A span without parent, attributes, span-events, links and status. -/
def plainSpan (name : String) (start finish : Nat) : Span where
  TraceId := []
  SpanId := []
  ParentSpanId := none
  Name := name
  Kind := Span_SPAN_KIND_UNSPECIFIED
  StartTimeUnixNano := start
  EndTimeUnixNano := finish
  Attributes := none
  Events := []
  Links := []
  Status := none

/-- A request with one span, which ends one nanosecond before it starts. -/
def backwardsRequest : ExportTraceServiceRequest where
  ResourceSpans :=
    [{ Resource := none,
       InstrumentationLibrarySpans :=
         [{ InstrumentationLibrary := none, Spans := [plainSpan "s" 2 1] }] }]

/-- A request with one span, which starts `2^63` nanoseconds after the epoch. -/
def lateStartRequest : ExportTraceServiceRequest where
  ResourceSpans :=
    [{ Resource := none,
       InstrumentationLibrarySpans :=
         [{ InstrumentationLibrary := none,
            Spans := [plainSpan "s" 9223372036854775808 9223372036854775809] }] }]

/-- A request with one resource-span group of two library span groups: the
first carries the library name `a`, the second carries no library. -/
def twoLibrariesRequest : ExportTraceServiceRequest where
  ResourceSpans :=
    [{ Resource := none,
       InstrumentationLibrarySpans :=
         [{ InstrumentationLibrary := some { Name := "a", Version := "" },
            Spans := [plainSpan "s1" 1 2] },
          { InstrumentationLibrary := none, Spans := [plainSpan "s2" 3 4] }] }]

/-- Every event of `result`, taken with the span it was emitted for, the
library span group `librarySpan` of that span, the library span groups `later`
that follow it in the same resource-span group, and that resource-span group,
satisfies `P`. The event of the `k`-th span of a library span group stands in
its batch after the events of the library span groups before it. -/
def EachGroupEvent (request : ExportTraceServiceRequest) (result : TranslateTraceRequestResult)
    (P : ResourceSpans → List InstrumentationLibrarySpans → InstrumentationLibrarySpans →
      Span → Event → Prop) : Prop :=
  List.Forall₂
    (fun resourceSpan batch =>
      ∀ (before : List InstrumentationLibrarySpans) (librarySpan : InstrumentationLibrarySpans)
        (later : List InstrumentationLibrarySpans),
        resourceSpan.InstrumentationLibrarySpans = before ++ librarySpan :: later →
        ∀ (k : Nat) (span : Span), librarySpan.Spans[k]? = some span →
          ∃ event,
            batch.Events[(before.flatMap fun group => group.Spans).length + k]? = some event ∧
            P resourceSpan later librarySpan span event)
    request.ResourceSpans result.Batches

/-- A request with one resource-span group of two library span groups that
carry the library names `a` and `b`. -/
def twoNamesRequest : ExportTraceServiceRequest where
  ResourceSpans :=
    [{ Resource := none,
       InstrumentationLibrarySpans :=
         [{ InstrumentationLibrary := some { Name := "a", Version := "" },
            Spans := [plainSpan "s1" 1 2] },
          { InstrumentationLibrary := some { Name := "b", Version := "" },
            Spans := [plainSpan "s2" 3 4] }] }]

/-- A request with one span that has two span-events, both with the attribute
key `k`. -/
def twoSpanEventsRequest : ExportTraceServiceRequest where
  ResourceSpans :=
    [{ Resource := none,
       InstrumentationLibrarySpans :=
         [{ InstrumentationLibrary := none,
            Spans :=
              [{ plainSpan "s" 1 2 with
                 Attributes := some [{ Key := "own", Value := some (.boolValue true) }],
                 Events :=
                   [{ TimeUnixNano := 1, Name := "e1",
                      Attributes := some [{ Key := "k", Value := some (.stringValue "first") }] },
                    { TimeUnixNano := 2, Name := "e2",
                      Attributes :=
                        some [{ Key := "k", Value := some (.stringValue "second") }] }] }] }] }]

/-- A request whose resource, span and span-event each carry an attribute
`sampleRate`. -/
def sampleRateRequest : ExportTraceServiceRequest where
  ResourceSpans :=
    [{ Resource := some { Attributes :=
         [{ Key := "sampleRate", Value := some (.intValue 5) }] },
       InstrumentationLibrarySpans :=
         [{ InstrumentationLibrary := none,
            Spans :=
              [{ plainSpan "s" 1 2 with
                 Attributes := some [{ Key := "sampleRate", Value := some (.stringValue "42") }],
                 Events :=
                   [{ TimeUnixNano := 1, Name := "e",
                      Attributes :=
                        some [{ Key := "SampleRate", Value := some (.intValue 7) }] }] }] }] }]

/-! ## Lemmas on `encoding/hex` -/

theorem hexEncodeFrom_append (src : List Byte) :
    ∀ (pre buf : List Char), buf.length = 2 * src.length →
      hexEncodeFrom src pre.length (pre ++ buf) = .ret (pre ++ src.flatMap hexPair) := by
  induction src with
  | nil =>
    intro pre buf h
    have : buf = [] := List.length_eq_zero.mp (by simpa using h)
    simp [hexEncodeFrom, this]
  | cons v rest ih =>
    intro pre buf h
    match buf, h with
    | a :: b :: buf2, h =>
      have hlen : buf2.length = 2 * rest.length := by
        simp only [List.length_cons] at h; omega
      have h1 : (pre ++ a :: b :: buf2).set pre.length (hexDigit (v.val / 16))
          = pre ++ hexDigit (v.val / 16) :: b :: buf2 := by
        simp [List.set_append]
      have h2 : (pre ++ hexDigit (v.val / 16) :: b :: buf2).set (pre.length + 1)
          (hexDigit (v.val % 16)) = (pre ++ hexPair v) ++ buf2 := by
        simp [List.set_append, hexPair]
      have key := ih (pre ++ hexPair v) buf2 hlen
      have hl : (pre ++ hexPair v).length = pre.length + 2 := by simp [hexPair]
      rw [hl] at key
      simp only [hexEncodeFrom, h1, h2]
      simpa [hexPair] using key
    | [], h => simp at h
    | [_], h => simp at h; omega

/-- Encoding into a fresh buffer of exactly twice the length of the source
fills the buffer with the hexadecimal digits and never leaves it. -/
theorem hexEncode_makeBytes (src : List Byte) (n : Nat) (h : n = 2 * src.length) :
    hexEncode (makeBytes n) src = .ret (src.flatMap hexPair) := by
  have := hexEncodeFrom_append src [] (makeBytes n) (by simp [makeBytes, h])
  simpa [hexEncode] using this

theorem length_flatMap_hexPair (src : List Byte) :
    (src.flatMap hexPair).length = 2 * src.length := by
  induction src with
  | nil => rfl
  | cons v rest ih =>
    rw [List.flatMap_cons, List.length_append, ih]
    simp [hexPair]
    omega

theorem hexEncodeToString_length (src : List Byte) :
    (hexEncodeToString src).length = 2 * src.length := by
  show (src.flatMap hexPair).length = 2 * src.length
  exact length_flatMap_hexPair src

theorem fromHexChar_hexDigit (n : Nat) (h : n < 16) : fromHexChar (hexDigit n) = some n := by
  interval_cases n <;> rfl

theorem hexDecodeChars_hexPair (v : Byte) (rest : List Char) (bs : List Byte)
    (h : hexDecodeChars rest = some bs) :
    hexDecodeChars (hexPair v ++ rest) = some (v :: bs) := by
  have h1 : fromHexChar (hexDigit (v.val / 16)) = some (v.val / 16) :=
    fromHexChar_hexDigit _ (by have := v.isLt; omega)
  have h2 : fromHexChar (hexDigit (v.val % 16)) = some (v.val % 16) :=
    fromHexChar_hexDigit _ (by omega)
  have h3 : (Fin.ofNat (v.val / 16 * 16 + v.val % 16) : Byte) = v := by
    apply Fin.ext
    have := v.isLt
    simp only [Fin.ofNat, Nat.div_add_mod']
    omega
  simp [hexPair, hexDecodeChars, h1, h2, h, h3]

/-- Decoding the hexadecimal encoding of a byte slice gives the slice back. -/
theorem hexDecodeString_hexEncodeToString (src : List Byte) :
    hexDecodeString (hexEncodeToString src) = some src := by
  simp only [hexDecodeString, hexEncodeToString]
  induction src with
  | nil => rfl
  | cons v rest ih =>
    rw [List.flatMap_cons]
    exact hexDecodeChars_hexPair v _ rest ih

/-! ## Lemmas on `shouldTrimTraceId` -/

theorem shouldTrimTraceIdFrom_true (traceID : List Byte) :
    ∀ (n i : Nat), (∀ k, i ≤ k → k < i + n → traceID[k]? = some 0) →
      shouldTrimTraceIdFrom traceID n i = .ret true := by
  intro n
  induction n with
  | zero => intro i _; rfl
  | succ n ih =>
    intro i h
    have h0 := h i (Nat.le_refl i) (by omega)
    have hrest := ih (i + 1) (fun k hk1 hk2 => h k (by omega) (by omega))
    simp [shouldTrimTraceIdFrom, h0, hrest]

theorem shouldTrimTraceIdFrom_false (traceID : List Byte) :
    ∀ (n i : Nat), i + n ≤ traceID.length →
      (∃ k, i ≤ k ∧ k < i + n ∧ ∃ b, traceID[k]? = some b ∧ b ≠ 0) →
      shouldTrimTraceIdFrom traceID n i = .ret false := by
  intro n
  induction n with
  | zero =>
    intro i _ h
    obtain ⟨k, h1, h2, _⟩ := h
    omega
  | succ n ih =>
    intro i hlen h
    obtain ⟨k, h1, h2, b, hb, hne⟩ := h
    have hi : i < traceID.length := by omega
    obtain ⟨c, hc⟩ : ∃ c, traceID[i]? = some c := ⟨traceID[i], List.getElem?_eq_getElem hi⟩
    by_cases hc0 : c = 0
    · have hk : i + 1 ≤ k := by
        rcases Nat.eq_or_lt_of_le h1 with heq | hlt
        · subst heq
          rw [hc] at hb
          cases hb
          exact absurd hc0 hne
        · exact hlt
      have := ih (i + 1) (by omega) ⟨k, hk, by omega, b, hb, hne⟩
      simp [shouldTrimTraceIdFrom, hc, hc0, this]
    · simp [shouldTrimTraceIdFrom, hc, hc0]

theorem shouldTrimTraceIdFrom_ret (traceID : List Byte) :
    ∀ (n i : Nat), i + n ≤ traceID.length →
      ∃ b, shouldTrimTraceIdFrom traceID n i = .ret b := by
  intro n
  induction n with
  | zero => intro i _; exact ⟨true, rfl⟩
  | succ n ih =>
    intro i hlen
    have hi : i < traceID.length := by omega
    obtain ⟨c, hc⟩ : ∃ c, traceID[i]? = some c := ⟨traceID[i], List.getElem?_eq_getElem hi⟩
    by_cases hc0 : c = 0
    · obtain ⟨b, hb⟩ := ih (i + 1) (by omega)
      exact ⟨b, by simp [shouldTrimTraceIdFrom, hc, hc0, hb]⟩
    · exact ⟨false, by simp [shouldTrimTraceIdFrom, hc, hc0]⟩

theorem BytesToTraceID_trim (traceID : List Byte) (hlen : traceID.length = 16)
    (htrim : shouldTrimTraceId traceID = .ret true) :
    BytesToTraceID traceID = .ret (hexEncodeToString (traceID.drop 8)) := by
  have hd : (traceID.drop traceIDShortLength).length = 8 := by
    simp [traceIDShortLength, hlen]
  have he := hexEncode_makeBytes (traceID.drop traceIDShortLength) 16 (by omega)
  have hle : traceIDShortLength ≤ traceID.length := by
    rw [hlen]; decide
  unfold BytesToTraceID bytesToTraceIDEncoded
  rw [if_pos (show traceID.length = traceIDLongLength from hlen), htrim]
  simp only [Outcome.bind, if_true, if_pos hle, he]
  rfl

theorem BytesToTraceID_full (traceID : List Byte) (hlen : traceID.length = 16)
    (htrim : shouldTrimTraceId traceID = .ret false) :
    BytesToTraceID traceID = .ret (hexEncodeToString traceID) := by
  have he := hexEncode_makeBytes traceID 32 (by omega)
  unfold BytesToTraceID bytesToTraceIDEncoded
  rw [if_pos (show traceID.length = traceIDLongLength from hlen), htrim]
  simp only [Outcome.bind, he]
  rfl

theorem BytesToTraceID_other (traceID : List Byte) (hlen : traceID.length ≠ 16) :
    BytesToTraceID traceID = .ret (hexEncodeToString traceID) := by
  unfold BytesToTraceID bytesToTraceIDEncoded
  rw [if_neg (show ¬ traceID.length = traceIDLongLength from hlen)]
  by_cases h8 : traceID.length = traceIDShortLength
  · have he := hexEncode_makeBytes traceID 16 (by rw [h8]; rfl)
    rw [if_pos h8, he]
    rfl
  · have he := hexEncode_makeBytes traceID (traceID.length * 2) (by omega)
    rw [if_neg h8, he]
    rfl

/-- The formatter returns for every byte slice: no index or slice expression
of `BytesToTraceID`, `shouldTrimTraceId` or `hex.Encode` leaves its bounds. -/
theorem BytesToTraceID_ret (traceID : List Byte) :
    ∃ s, BytesToTraceID traceID = .ret s := by
  by_cases h16 : traceID.length = 16
  · obtain ⟨b, hb⟩ := shouldTrimTraceIdFrom_ret traceID 8 0 (by omega)
    cases b with
    | true => exact ⟨_, BytesToTraceID_trim traceID h16 hb⟩
    | false => exact ⟨_, BytesToTraceID_full traceID h16 hb⟩
  · exact ⟨_, BytesToTraceID_other traceID h16⟩

/-! ## Lemmas on maps -/

theorem mapGet_mapSet (m : AttrMap) (key key2 : String) (val : Value) :
    mapGet (mapSet m key val) key2 = if key = key2 then some val else mapGet m key2 := by
  induction m with
  | nil => simp [mapSet, mapGet]
  | cons p m ih =>
    obtain ⟨k, v⟩ := p
    by_cases h : k = key
    · subst h
      by_cases h2 : k = key2 <;> simp [mapSet, mapGet, h2]
    · by_cases h2 : k = key2
      · subst h2
        have h3 : ¬ key = k := fun e => h e.symm
        simp [mapSet, mapGet, h, h3]
      · simp [mapSet, mapGet, h, h2, ih]

/-! ## Lemmas on the span translator -/

theorem mapGet_ite (c : Prop) [Decidable c] (a b : AttrMap) (key : String) :
    mapGet (if c then a else b) key = if c then mapGet a key else mapGet b key := by
  split <;> rfl

theorem mapGet_spanEventAttrs_sampleRate (span : Span) (traceID : String) (ra sa ea : Nat) :
    mapGet (spanEventAttrs span traceID ra sa ea) "sampleRate" = none ∧
    mapGet (spanEventAttrs span traceID ra sa ea) "SampleRate" = none := by
  obtain ⟨tid, sid, parent, name, kind, st, en, attrs, evs, links, status⟩ := span
  cases parent <;> cases status <;>
    simp [spanEventAttrs, mapGet_mapSet, mapGet_ite, eventAttrsLiteral, mapGet]

/-- The assembled top-level map holds no sample-rate key, so `getSampleRate`
returns 0 and leaves it as it is. -/
theorem getSampleRate_spanEventAttrs (env : Env) (span : Span) (traceID : String)
    (ra sa ea : Nat) :
    getSampleRate env (spanEventAttrs span traceID ra sa ea) =
      (zeroSampleRate, spanEventAttrs span traceID ra sa ea) := by
  obtain ⟨h1, h2⟩ := mapGet_spanEventAttrs_sampleRate span traceID ra sa ea
  simp [getSampleRate, getSampleRateKey, h1, h2]

/-- The loop body for one span, in closed form. -/
theorem translateSpan_eq (env : Env) (ra : Nat) (heap : Heap) (span : Span) :
    translateSpan env ra heap span =
      (BytesToTraceID span.TraceId).bind fun traceID =>
        .ret ({ Attributes := spanEventAttrs span traceID ra heap.length (heap.length + 1),
                Timestamp := toInt64 span.StartTimeUnixNano,
                SampleRate := zeroSampleRate }, spanHeap env heap span) := by
  unfold translateSpan
  cases hid : BytesToTraceID span.TraceId with
  | panic => rfl
  | ret traceID =>
    have key := getSampleRate_spanEventAttrs env span traceID ra heap.length (heap.length + 1)
    simp only [spanEventAttrs] at key
    simp only [Outcome.bind, Heap.alloc, List.length_append, List.length_singleton, key,
      spanEventAttrs, spanHeap]

theorem translateSpan_ret (env : Env) (ra : Nat) (heap : Heap) (span : Span) :
    ∃ event, translateSpan env ra heap span = .ret (event, spanHeap env heap span) ∧
      IsEventOf ra span event := by
  obtain ⟨traceID, hid⟩ := BytesToTraceID_ret span.TraceId
  refine ⟨{ Attributes := spanEventAttrs span traceID ra heap.length (heap.length + 1),
             Timestamp := toInt64 span.StartTimeUnixNano,
             SampleRate := zeroSampleRate }, ?_, traceID, heap.length, heap.length + 1, hid,
    rfl, rfl, rfl⟩
  rw [translateSpan_eq, hid]
  rfl

theorem spanLoop_ret (env : Env) (ra : Nat) (spans : List Span) :
    ∀ (events : List Event) (heap : Heap),
      ∃ newEvents heap2, spanLoop env ra spans events heap = .ret (events ++ newEvents, heap2) ∧
        List.Forall₂ (IsEventOf ra) spans newEvents := by
  induction spans with
  | nil =>
    intro events heap
    exact ⟨[], heap, by simp [spanLoop], List.Forall₂.nil⟩
  | cons span rest ih =>
    intro events heap
    obtain ⟨event, hev, hof⟩ := translateSpan_ret env ra heap span
    obtain ⟨more, heap2, hloop, hall⟩ := ih (events ++ [event]) (spanHeap env heap span)
    refine ⟨event :: more, heap2, ?_, List.Forall₂.cons hof hall⟩
    simp only [spanLoop, hev, Outcome.bind, hloop]
    simp

theorem librarySpanLoop_ret (env : Env) (ra : Nat) (librarySpans : List InstrumentationLibrarySpans) :
    ∀ (events : List Event) (heap : Heap),
      ∃ newEvents heap2,
        librarySpanLoop env ra librarySpans events heap = .ret (events ++ newEvents, heap2) ∧
        List.Forall₂ (IsEventOf ra)
          (librarySpans.flatMap fun librarySpan => librarySpan.Spans) newEvents := by
  induction librarySpans with
  | nil =>
    intro events heap
    exact ⟨[], heap, by simp [librarySpanLoop], List.Forall₂.nil⟩
  | cons librarySpan rest ih =>
    intro events heap
    obtain ⟨evs1, heap1, h1, hall1⟩ := spanLoop_ret env ra librarySpan.Spans events
      (addLibrary ra librarySpan.InstrumentationLibrary heap)
    obtain ⟨evs2, heap2, h2, hall2⟩ := ih (events ++ evs1) heap1
    refine ⟨evs1 ++ evs2, heap2, ?_, ?_⟩
    · simp only [librarySpanLoop, h1, Outcome.bind, h2]
      simp
    · rw [List.flatMap_cons]
      exact List.rel_append hall1 hall2

theorem translateResourceSpan_ret (env : Env) (ri : RequestInfo) (heap : Heap)
    (resourceSpan : ResourceSpans) :
    ∃ batch heap2, translateResourceSpan env ri heap resourceSpan = .ret (batch, heap2) ∧
      IsBatchOf env ri resourceSpan batch := by
  unfold translateResourceSpan
  simp only [Heap.alloc]
  obtain ⟨evs, heap2, h, hall⟩ := librarySpanLoop_ret env heap.length
    resourceSpan.InstrumentationLibrarySpans []
    (match resourceSpan.Resource with
      | some resource =>
        Heap.put (heap ++ [[]]) heap.length
          (env.addAttributesToMap (Heap.get (heap ++ [[]]) heap.length) resource.Attributes)
      | none => heap ++ [[]])
  rw [List.nil_append] at h
  refine ⟨{ Dataset := ri.Dataset, SizeBytes := env.sizeResourceSpans resourceSpan,
            Events := evs }, heap2, ?_, ?_⟩
  · rw [h]
    rfl
  · exact ⟨rfl, rfl, heap.length, hall⟩

theorem resourceSpanLoop_ret (env : Env) (ri : RequestInfo) (resourceSpans : List ResourceSpans) :
    ∀ (batches : List Batch) (heap : Heap),
      ∃ newBatches heap2,
        resourceSpanLoop env ri resourceSpans batches heap = .ret (batches ++ newBatches, heap2) ∧
        List.Forall₂ (IsBatchOf env ri) resourceSpans newBatches := by
  induction resourceSpans with
  | nil =>
    intro batches heap
    exact ⟨[], heap, by simp [resourceSpanLoop], List.Forall₂.nil⟩
  | cons resourceSpan rest ih =>
    intro batches heap
    obtain ⟨batch, heap1, h1, hof⟩ := translateResourceSpan_ret env ri heap resourceSpan
    obtain ⟨more, heap2, h2, hall⟩ := ih (batches ++ [batch]) heap1
    refine ⟨batch :: more, heap2, ?_, List.Forall₂.cons hof hall⟩
    simp only [resourceSpanLoop, h1, Outcome.bind, h2]
    simp

/-- The translator returns for every request, with a result that is not nil and
a nil error; its batches are those of the resource-span groups, in order. -/
theorem TranslateTraceReq_ret (env : Env) (request : ExportTraceServiceRequest)
    (ri : RequestInfo) :
    ∃ result, TranslateTraceReq env request ri = .ret (some result, none) ∧
      result.RequestSize = env.sizeRequest request ∧
      List.Forall₂ (IsBatchOf env ri) request.ResourceSpans result.Batches := by
  obtain ⟨batches, heap, h, hall⟩ := resourceSpanLoop_ret env ri request.ResourceSpans [] []
  rw [List.nil_append] at h
  refine ⟨{ RequestSize := env.sizeRequest request, Batches := batches, heap := heap },
    ?_, rfl, hall⟩
  unfold TranslateTraceReq
  rw [h]
  rfl

/-! ## Facts about the emitted events -/

theorem mapGet_spanEventAttrs_spanName (span : Span) (traceID : String) (ra sa ea : Nat) :
    mapGet (spanEventAttrs span traceID ra sa ea) "spanName" = some (.string span.Name) := by
  obtain ⟨tid, sid, parent, name, kind, st, en, attrs, evs, links, status⟩ := span
  cases parent <;> cases status <;>
    simp [spanEventAttrs, mapGet_mapSet, mapGet_ite, eventAttrsLiteral, mapGet]

theorem mapGet_spanEventAttrs_nil_status (span : Span) (traceID : String) (ra sa ea : Nat)
    (h : span.Status = none) :
    mapGet (spanEventAttrs span traceID ra sa ea) "statusCode" =
        some (.statusCode Status_STATUS_CODE_UNSET) ∧
      mapGet (spanEventAttrs span traceID ra sa ea) "error" = some (.bool false) ∧
      mapGet (spanEventAttrs span traceID ra sa ea) "statusMessage" = none := by
  obtain ⟨tid, sid, parent, name, kind, st, en, attrs, evs, links, status⟩ := span
  simp only at h
  subst h
  cases parent <;>
    simp [spanEventAttrs, mapGet_mapSet, mapGet_ite, eventAttrsLiteral, mapGet,
      getSpanStatusCode, Status_STATUS_CODE_UNSET, Status_STATUS_CODE_ERROR]

theorem events_spanName {ra : Nat} {spans : List Span} {events : List Event}
    (h : List.Forall₂ (IsEventOf ra) spans events) :
    events.map (fun event => mapGet event.Attributes "spanName") =
      spans.map (fun span => some (Value.string span.Name)) := by
  induction h with
  | nil => rfl
  | cons hof _ ih =>
    obtain ⟨traceID, sa, ea, _, hattrs, _, _⟩ := hof
    simp only [List.map_cons, ih, hattrs, mapGet_spanEventAttrs_spanName]

theorem batches_spanName {env : Env} {ri : RequestInfo} {resourceSpans : List ResourceSpans}
    {batches : List Batch} (h : List.Forall₂ (IsBatchOf env ri) resourceSpans batches) :
    batches.map (fun batch => batch.Events.map fun event => mapGet event.Attributes "spanName") =
      resourceSpans.map (fun resourceSpan =>
        (spansOf resourceSpan).map fun span => some (Value.string span.Name)) := by
  induction h with
  | nil => rfl
  | cons hof _ ih =>
    obtain ⟨_, _, ra, hev⟩ := hof
    simp only [List.map_cons, ih, events_spanName hev]

theorem batches_eventCount {env : Env} {ri : RequestInfo} {resourceSpans : List ResourceSpans}
    {batches : List Batch} (h : List.Forall₂ (IsBatchOf env ri) resourceSpans batches) :
    (batches.map fun batch => batch.Events.length).sum =
      (resourceSpans.map fun resourceSpan => (spansOf resourceSpan).length).sum := by
  induction h with
  | nil => rfl
  | cons hof _ ih =>
    obtain ⟨_, _, ra, hev⟩ := hof
    simp only [List.map_cons, List.sum_cons, ih, hev.length_eq]

theorem batches_dataset {env : Env} {ri : RequestInfo} {resourceSpans : List ResourceSpans}
    {batches : List Batch} (h : List.Forall₂ (IsBatchOf env ri) resourceSpans batches) :
    ∀ batch ∈ batches, batch.Dataset = ri.Dataset := by
  induction h with
  | nil => intro batch hmem; cases hmem
  | cons hof _ ih =>
    intro batch hmem
    rcases List.mem_cons.mp hmem with heq | htail
    · rw [heq]; exact hof.1
    · exact ih batch htail

/-! ## The claims -/

/-- C1: for every decoded request `TranslateTraceReq` returns a result in which the
events of the i-th batch are, one for one and in order, the spans of the i-th
resource-span group (the concatenation of the spans of its library span
groups): the list of the `spanName` values of each batch is the list of the
names of those spans. Hence the number of events over all batches is the number
of spans of the request. -/
theorem TranslateTraceReq_one_event_per_span (env : Env)
    (request : ExportTraceServiceRequest) (ri : RequestInfo) :
    ∃ result, TranslateTraceReq env request ri = .ret (some result, none) ∧
      result.Batches.map
          (fun batch => batch.Events.map fun event => mapGet event.Attributes "spanName") =
        request.ResourceSpans.map
          (fun resourceSpan =>
            (spansOf resourceSpan).map fun span => some (Value.string span.Name)) ∧
      eventCount result = spanCount request := by
  obtain ⟨result, hret, _, hall⟩ := TranslateTraceReq_ret env request ri
  exact ⟨result, hret, batches_spanName hall, batches_eventCount hall⟩

/-- C2: for every decoded request and every `RequestInfo`, the result of
`TranslateTraceReq` has one batch per resource-span group, in input order (the
i-th batch carries the size of the i-th group and as many events as the group
has spans, none for a group without spans), and the `Dataset` of every batch is
`ri.Dataset`, whatever the resource attributes are. -/
theorem TranslateTraceReq_batch_per_group (env : Env)
    (request : ExportTraceServiceRequest) (ri : RequestInfo) :
    ∃ result, TranslateTraceReq env request ri = .ret (some result, none) ∧
      result.Batches.length = request.ResourceSpans.length ∧
      (∀ batch ∈ result.Batches, batch.Dataset = ri.Dataset) ∧
      List.Forall₂
        (fun resourceSpan batch =>
          batch.Dataset = ri.Dataset ∧
          batch.SizeBytes = env.sizeResourceSpans resourceSpan ∧
          batch.Events.length = (spansOf resourceSpan).length)
        request.ResourceSpans result.Batches := by
  obtain ⟨result, hret, _, hall⟩ := TranslateTraceReq_ret env request ri
  have hrel : List.Forall₂
      (fun resourceSpan batch =>
        batch.Dataset = ri.Dataset ∧
        batch.SizeBytes = env.sizeResourceSpans resourceSpan ∧
        batch.Events.length = (spansOf resourceSpan).length)
      request.ResourceSpans result.Batches := by
    refine List.Forall₂.imp ?_ hall
    rintro resourceSpan batch ⟨hd, hs, ra, hev⟩
    exact ⟨hd, hs, hev.length_eq.symm⟩
  exact ⟨result, hret, hall.length_eq.symm, batches_dataset hall, hrel⟩

/-- An example: a request of two resource-span groups without spans, the first
one with the resource attribute `service.name`, gives two empty batches with the
dataset of the request context. -/
theorem TranslateTraceReq_batch_per_group_example :
    ∃ result,
      TranslateTraceReq testEnv
        { ResourceSpans :=
            [ { Resource := some { Attributes :=
                  [{ Key := "service.name", Value := some (.stringValue "checkout") }] },
                InstrumentationLibrarySpans := [] },
              { Resource := none, InstrumentationLibrarySpans := [] } ] }
        { Dataset := "ds", ContentEncoding := "" } = .ret (some result, none) ∧
      result.Batches.map (fun batch => (batch.Dataset, batch.Events.length)) =
        [("ds", 0), ("ds", 0)] := by
  refine ⟨_, rfl, rfl⟩

/-- C5: for every byte slice of length 16 whose first 8 bytes are all zero,
`BytesToTraceID` returns a string of length 16, the lowercase hex encoding of
the last 8 bytes only. -/
theorem BytesToTraceID_zero_padded (traceID : List Byte) (hlen : traceID.length = 16)
    (hzero : ∀ i, i < 8 → traceID[i]? = some 0) :
    ∃ s, BytesToTraceID traceID = .ret s ∧ s.length = 16 ∧
      s = hexEncodeToString (traceID.drop 8) := by
  have htrim : shouldTrimTraceId traceID = .ret true :=
    shouldTrimTraceIdFrom_true traceID 8 0 (fun k _ hk => hzero k (by omega))
  refine ⟨_, BytesToTraceID_trim traceID hlen htrim, ?_, rfl⟩
  rw [hexEncodeToString_length, List.length_drop, hlen]

/-- C5 at the trace ID `0000000000000000f798a1e7f33c8af6` of the source comment. -/
theorem BytesToTraceID_zero_padded_witness :
    BytesToTraceID [0, 0, 0, 0, 0, 0, 0, 0, 247, 152, 161, 231, 243, 60, 138, 246] =
      .ret "f798a1e7f33c8af6" := by
  obtain ⟨s, hs, _, heq⟩ := BytesToTraceID_zero_padded
    [0, 0, 0, 0, 0, 0, 0, 0, 247, 152, 161, 231, 243, 60, 138, 246] (by decide) (by decide)
  rw [hs, heq]
  rfl

/-- C6: for every byte slice of length 16 with a nonzero byte among its first 8,
`BytesToTraceID` returns a string of length 32, the lowercase hex encoding of all
16 bytes, and hex-decoding that string gives the input back. -/
theorem BytesToTraceID_full_length (traceID : List Byte) (hlen : traceID.length = 16)
    (hnz : ∃ i, i < 8 ∧ ∃ b, traceID[i]? = some b ∧ b ≠ 0) :
    ∃ s, BytesToTraceID traceID = .ret s ∧ s.length = 32 ∧
      s = hexEncodeToString traceID ∧ hexDecodeString s = some traceID := by
  obtain ⟨i, hi, b, hb, hne⟩ := hnz
  have htrim : shouldTrimTraceId traceID = .ret false :=
    shouldTrimTraceIdFrom_false traceID 8 0 (by omega) ⟨i, Nat.zero_le i, by omega, b, hb, hne⟩
  refine ⟨_, BytesToTraceID_full traceID hlen htrim, ?_, rfl,
    hexDecodeString_hexEncodeToString traceID⟩
  rw [hexEncodeToString_length, hlen]

/-- C6 at a trace ID whose only nonzero byte among the first 8 is the eighth. -/
theorem BytesToTraceID_full_length_witness :
    BytesToTraceID [0, 0, 0, 0, 0, 0, 0, 1, 247, 152, 161, 231, 243, 60, 138, 246] =
        .ret "0000000000000001f798a1e7f33c8af6" ∧
      hexDecodeString "0000000000000001f798a1e7f33c8af6" =
        some [0, 0, 0, 0, 0, 0, 0, 1, 247, 152, 161, 231, 243, 60, 138, 246] := by
  obtain ⟨s, hs, _, heq, hdec⟩ := BytesToTraceID_full_length
    [0, 0, 0, 0, 0, 0, 0, 1, 247, 152, 161, 231, 243, 60, 138, 246] (by decide)
    ⟨7, by decide, 1, by decide, by decide⟩
  have hstr : s = "0000000000000001f798a1e7f33c8af6" := by rw [heq]; rfl
  rw [hs, ← hstr]
  exact ⟨rfl, hdec⟩

/-- C7: for every byte slice of a length `L` other than 16, `BytesToTraceID`
returns (it does not panic on an index out of range) a string of length `2L`,
the plain lowercase hex encoding of all `L` bytes. -/
theorem BytesToTraceID_other_length (traceID : List Byte) (hlen : traceID.length ≠ 16) :
    ∃ s, BytesToTraceID traceID = .ret s ∧ s.length = 2 * traceID.length ∧
      s = hexEncodeToString traceID :=
  ⟨_, BytesToTraceID_other traceID hlen, hexEncodeToString_length traceID, rfl⟩

/-- C7 at the lengths 8, 0 and 17. -/
theorem BytesToTraceID_other_length_witness :
    BytesToTraceID [247, 152, 161, 231, 243, 60, 138, 246] = .ret "f798a1e7f33c8af6" ∧
      BytesToTraceID [] = .ret "" ∧
      BytesToTraceID [0, 0, 0, 0, 0, 0, 0, 0, 0, 0, 0, 0, 0, 0, 0, 0, 171] =
        .ret "00000000000000000000000000000000ab" := by
  obtain ⟨s1, h1, _, e1⟩ := BytesToTraceID_other_length
    [247, 152, 161, 231, 243, 60, 138, 246] (by decide)
  obtain ⟨s2, h2, _, e2⟩ := BytesToTraceID_other_length [] (by decide)
  obtain ⟨s3, h3, _, e3⟩ := BytesToTraceID_other_length
    [0, 0, 0, 0, 0, 0, 0, 0, 0, 0, 0, 0, 0, 0, 0, 0, 171] (by decide)
  rw [h1, h2, h3, e1, e2, e3]
  exact ⟨rfl, rfl, rfl⟩

/-- C8: for every status (not nil) whose current `Code` is UNSET,
`getSpanStatusCode` returns UNSET when `DeprecatedCode` is
`DEPRECATED_STATUS_CODE_OK` and ERROR for every other `DeprecatedCode`. -/
theorem getSpanStatusCode_unset (status : Status)
    (hcode : status.Code = Status_STATUS_CODE_UNSET) :
    (status.DeprecatedCode = Status_DEPRECATED_STATUS_CODE_OK →
        getSpanStatusCode (some status) = Status_STATUS_CODE_UNSET) ∧
      (status.DeprecatedCode ≠ Status_DEPRECATED_STATUS_CODE_OK →
        getSpanStatusCode (some status) = Status_STATUS_CODE_ERROR) := by
  constructor
  · intro hdep
    simp [getSpanStatusCode, hcode, hdep]
  · intro hdep
    simp [getSpanStatusCode, hcode, hdep]

/-- C8 at the deprecated codes OK (0) and UNKNOWN_ERROR (2). -/
theorem getSpanStatusCode_unset_witness :
    getSpanStatusCode (some { Code := 0, DeprecatedCode := 0, Message := "" }) = 0 ∧
      getSpanStatusCode (some { Code := 0, DeprecatedCode := 2, Message := "" }) = 2 :=
  ⟨(getSpanStatusCode_unset { Code := 0, DeprecatedCode := 0, Message := "" } rfl).1 rfl,
    (getSpanStatusCode_unset { Code := 0, DeprecatedCode := 2, Message := "" } rfl).2
      (by decide)⟩

/-- C9: for every status (not nil) whose current `Code` is not UNSET,
`getSpanStatusCode` returns that `Code`, whatever `DeprecatedCode` is: two
statuses that differ only in `DeprecatedCode` give the same result. -/
theorem getSpanStatusCode_set (status : Status)
    (hcode : status.Code ≠ Status_STATUS_CODE_UNSET) :
    getSpanStatusCode (some status) = status.Code ∧
      ∀ deprecated : Int,
        getSpanStatusCode (some { status with DeprecatedCode := deprecated }) =
          getSpanStatusCode (some status) := by
  constructor
  · simp [getSpanStatusCode, hcode]
  · intro deprecated
    simp [getSpanStatusCode, hcode]

/-- C9 at the current code OK (1) with the deprecated code UNKNOWN_ERROR (2). -/
theorem getSpanStatusCode_set_witness :
    getSpanStatusCode (some { Code := 1, DeprecatedCode := 2, Message := "" }) = 1 :=
  (getSpanStatusCode_set { Code := 1, DeprecatedCode := 2, Message := "" } (by decide)).1

theorem batches_nil_status {env : Env} {ri : RequestInfo} {resourceSpans : List ResourceSpans}
    {batches : List Batch} (h : List.Forall₂ (IsBatchOf env ri) resourceSpans batches) :
    List.Forall₂
      (fun resourceSpan batch =>
        List.Forall₂
          (fun span event =>
            span.Status = none →
              mapGet event.Attributes "statusCode" =
                  some (.statusCode Status_STATUS_CODE_UNSET) ∧
                mapGet event.Attributes "error" = some (.bool false) ∧
                mapGet event.Attributes "statusMessage" = none)
          (spansOf resourceSpan) batch.Events)
      resourceSpans batches := by
  refine List.Forall₂.imp ?_ h
  rintro resourceSpan batch ⟨_, _, ra, hev⟩
  refine List.Forall₂.imp ?_ hev
  rintro span event ⟨traceID, sa, ea, _, hattrs, _, _⟩ hnil
  rw [hattrs]
  exact mapGet_spanEventAttrs_nil_status span traceID ra sa ea hnil

/-- C10: a missing status gives the defaults and no failure:
`getSpanStatusCode(nil)` is UNSET, and for every request `TranslateTraceReq`
returns a result in which the event of every span whose `Status` is nil has
`statusCode` UNSET, `error` false and no `statusMessage` key. -/
theorem missing_status_defaults :
    getSpanStatusCode none = Status_STATUS_CODE_UNSET ∧
      ∀ (env : Env) (request : ExportTraceServiceRequest) (ri : RequestInfo),
        ∃ result, TranslateTraceReq env request ri = .ret (some result, none) ∧
          List.Forall₂
            (fun resourceSpan batch =>
              List.Forall₂
                (fun span event =>
                  span.Status = none →
                    mapGet event.Attributes "statusCode" =
                        some (.statusCode Status_STATUS_CODE_UNSET) ∧
                      mapGet event.Attributes "error" = some (.bool false) ∧
                      mapGet event.Attributes "statusMessage" = none)
                (spansOf resourceSpan) batch.Events)
            request.ResourceSpans result.Batches := by
  refine ⟨rfl, ?_⟩
  intro env request ri
  obtain ⟨result, hret, _, hall⟩ := TranslateTraceReq_ret env request ri
  exact ⟨result, hret, batches_nil_status hall⟩

/-! ## The body decoder -/

/-- Every error of `parseOTLPBody` reaches the caller as `ErrFailedParseBody`
with a nil result. -/
theorem TranslateTraceReqFromReader_of_parse_error (env : Env) (body : Reader)
    (ri : RequestInfo) (request : Option ExportTraceServiceRequest) (err : GoError)
    (h : parseOTLPBody env body ri.ContentEncoding = .ret (request, some err)) :
    TranslateTraceReqFromReader env body ri = .ret (none, some .ErrFailedParseBody) := by
  unfold TranslateTraceReqFromReader
  rw [h]
  rfl

theorem readAndUnmarshal_cases (env : Env) (reader : Reader) :
    (∃ request, readAndUnmarshal env reader = .ret (some request, none)) ∨
      ∃ err, readAndUnmarshal env reader = .ret (none, some err) := by
  cases h1 : reader.readAll with
  | error err => exact Or.inr ⟨err, by simp [readAndUnmarshal, h1]⟩
  | ok bytes =>
    cases h2 : env.unmarshal bytes with
    | error err => exact Or.inr ⟨err, by simp [readAndUnmarshal, h1, h2]⟩
    | ok request => exact Or.inl ⟨request, by simp [readAndUnmarshal, h1, h2]⟩

/-- The outcomes of `parseOTLPBody`: a request with a nil error, a nil request
with an error, or a panic; it panics exactly when the encoding is `"gzip"`, the
body can be read and `gzip.NewReader` rejects it. -/
theorem parseOTLPBody_cases (env : Env) (body : Reader) (contentEncoding : String) :
    (∃ request, parseOTLPBody env body contentEncoding = .ret (some request, none)) ∨
      (∃ err, parseOTLPBody env body contentEncoding = .ret (none, some err)) ∨
      (parseOTLPBody env body contentEncoding = .panic ∧ contentEncoding = "gzip" ∧
        ∃ bodyBytes err, body.readAll = .ok bodyBytes ∧
          env.gzipNewReader bodyBytes = .error err) := by
  unfold parseOTLPBody
  cases hread : body.readAll with
  | error err => exact Or.inr (Or.inl ⟨err, rfl⟩)
  | ok bodyBytes =>
    by_cases hgz : contentEncoding = "gzip"
    · simp only [hgz, if_true]
      cases hnew : env.gzipNewReader bodyBytes with
      | error err => exact Or.inr (Or.inr ⟨rfl, trivial, bodyBytes, err, rfl, hnew⟩)
      | ok gzipReader =>
        rcases readAndUnmarshal_cases env gzipReader with ⟨request, h⟩ | ⟨err, h⟩
        · exact Or.inl ⟨request, by simp [deferredGzipClose, h]⟩
        · exact Or.inr (Or.inl ⟨err, by simp [deferredGzipClose, h]⟩)
    · simp only [hgz, if_false]
      by_cases hz : contentEncoding = "zstd"
      · simp only [hz, if_true]
        rcases hnew : env.zstdNewReader bodyBytes with ⟨zstdReader, _ | err⟩
        · rcases readAndUnmarshal_cases env zstdReader with ⟨request, h⟩ | ⟨err, h⟩
          · exact Or.inl ⟨request, by simp [h]⟩
          · exact Or.inr (Or.inl ⟨err, by simp [h]⟩)
        · exact Or.inr (Or.inl ⟨err, rfl⟩)
      · simp only [hz, if_false]
        rcases readAndUnmarshal_cases env { readAll := .ok bodyBytes } with
          ⟨request, h⟩ | ⟨err, h⟩
        · exact Or.inl ⟨request, by simp [h]⟩
        · exact Or.inr (Or.inl ⟨err, by simp [h]⟩)

/-- The outcomes of `TranslateTraceReqFromReader`: a complete result with a nil
error, a nil result with `ErrFailedParseBody`, or the panic of `parseOTLPBody`. -/
theorem TranslateTraceReqFromReader_cases (env : Env) (body : Reader) (ri : RequestInfo) :
    (∃ result, TranslateTraceReqFromReader env body ri = .ret (some result, none)) ∨
      TranslateTraceReqFromReader env body ri = .ret (none, some .ErrFailedParseBody) ∨
      (TranslateTraceReqFromReader env body ri = .panic ∧ ri.ContentEncoding = "gzip" ∧
        ∃ bodyBytes err, body.readAll = .ok bodyBytes ∧
          env.gzipNewReader bodyBytes = .error err) := by
  rcases parseOTLPBody_cases env body ri.ContentEncoding with
    ⟨request, h⟩ | ⟨err, h⟩ | ⟨h, henc, hwhy⟩
  · obtain ⟨result, hres, _⟩ := TranslateTraceReq_ret env request ri
    refine Or.inl ⟨result, ?_⟩
    unfold TranslateTraceReqFromReader
    rw [h]
    exact hres
  · exact Or.inr (Or.inl (TranslateTraceReqFromReader_of_parse_error env body ri none err h))
  · refine Or.inr (Or.inr ⟨?_, henc, hwhy⟩)
    unfold TranslateTraceReqFromReader
    rw [h]
    rfl

/-- C3: the code does not do what the claim says. For a body that can be read
and that `gzip.NewReader` rejects (the bytes do not start a gzip stream),
declared with `ContentEncoding` `"gzip"`, `TranslateTraceReqFromReader` panics:
`parseOTLPBody` defers `gzipReader.Close()` before it tests the error, and the
deferred call runs on the nil reader. It returns neither a result nor
`ErrFailedParseBody`. -/
theorem TranslateTraceReqFromReader_bad_gzip_panics (env : Env) (body : Reader)
    (ri : RequestInfo) (bodyBytes : List Byte) (err : GoError)
    (henc : ri.ContentEncoding = "gzip") (hread : body.readAll = .ok bodyBytes)
    (hgz : env.gzipNewReader bodyBytes = .error err) :
    TranslateTraceReqFromReader env body ri = .panic := by
  unfold TranslateTraceReqFromReader parseOTLPBody
  simp only [henc, hread, hgz, if_true]
  rfl

/-- C3 at the body `hello world`, which lacks the gzip magic numbers. -/
theorem TranslateTraceReqFromReader_bad_gzip_panics_witness :
    TranslateTraceReqFromReader testEnv
        { readAll := .ok [104, 101, 108, 108, 111, 32, 119, 111, 114, 108, 100] }
        { Dataset := "ds", ContentEncoding := "gzip" } = .panic :=
  TranslateTraceReqFromReader_bad_gzip_panics testEnv _ _
    [104, 101, 108, 108, 111, 32, 119, 111, 114, 108, 100] (.other "gzip: invalid header")
    rfl rfl rfl

/-- C4: the code is not all-or-nothing on every body. For the empty body declared
with `ContentEncoding` `"gzip"`, `TranslateTraceReqFromReader` returns neither a
complete result with a nil error nor a nil result with `ErrFailedParseBody`: it
panics, through the same deferred `gzipReader.Close()` on a nil reader. -/
theorem TranslateTraceReqFromReader_empty_gzip_body :
    TranslateTraceReqFromReader testEnv { readAll := .ok [] }
        { Dataset := "ds", ContentEncoding := "gzip" } = .panic ∧
      (¬ ∃ result,
        TranslateTraceReqFromReader testEnv { readAll := .ok [] }
          { Dataset := "ds", ContentEncoding := "gzip" } = .ret (some result, none)) ∧
      TranslateTraceReqFromReader testEnv { readAll := .ok [] }
          { Dataset := "ds", ContentEncoding := "gzip" } ≠
        .ret (none, some .ErrFailedParseBody) := by
  have h : TranslateTraceReqFromReader testEnv { readAll := .ok [] }
      { Dataset := "ds", ContentEncoding := "gzip" } = .panic := rfl
  refine ⟨h, ?_, ?_⟩
  · rintro ⟨result, hres⟩
    rw [h] at hres
    cases hres
  · rw [h]
    intro hne
    cases hne

/-! ## Lemmas on the heap -/

theorem Heap.length_put (h : Heap) (a : Nat) (m : AttrMap) : (h.put a m).length = h.length := by
  simp [Heap.put]

theorem Heap.get_put_self (h : Heap) (a : Nat) (m : AttrMap) (ha : a < h.length) :
    (h.put a m).get a = m := by
  simp [Heap.put, Heap.get, List.getD_eq_getElem?_getD, ha]

theorem Heap.get_put_of_ne (h : Heap) (a b : Nat) (m : AttrMap) (hne : a ≠ b) :
    (h.put a m).get b = h.get b := by
  simp [Heap.put, Heap.get, List.getD_eq_getElem?_getD, List.getElem?_set_ne hne]

theorem Heap.get_append_left (h x : Heap) (a : Nat) (ha : a < h.length) :
    Heap.get (h ++ x) a = h.get a := by
  simp [Heap.get, List.getD_eq_getElem?_getD, List.getElem?_append_left ha]

theorem Heap.get_append_singleton (h : Heap) (m : AttrMap) :
    Heap.get (h ++ [m]) h.length = m := by
  simp [Heap.get, List.getD_eq_getElem?_getD]

theorem Heap.Extends.refl (h : Heap) : Heap.Extends h h :=
  ⟨Nat.le_refl _, fun _ _ => rfl⟩

theorem Heap.Extends.trans {h1 h2 h3 : Heap} (h12 : Heap.Extends h1 h2)
    (h23 : Heap.Extends h2 h3) : Heap.Extends h1 h3 :=
  ⟨Nat.le_trans h12.1 h23.1, fun a ha =>
    (h23.2 a (Nat.lt_of_lt_of_le ha h12.1)).trans (h12.2 a ha)⟩

theorem Heap.Extends.off {h1 h2 : Heap} (addr : Nat) (h12 : Heap.Extends h1 h2) :
    Heap.ExtendsOff addr h1 h2 :=
  ⟨h12.1, fun a ha _ => h12.2 a ha⟩

theorem Heap.ExtendsOff.transOff {addr : Nat} {h1 h2 h3 : Heap} (h12 : Heap.ExtendsOff addr h1 h2)
    (h23 : Heap.ExtendsOff addr h2 h3) : Heap.ExtendsOff addr h1 h3 :=
  ⟨Nat.le_trans h12.1 h23.1, fun a ha hne =>
    (h23.2 a (Nat.lt_of_lt_of_le ha h12.1) hne).trans (h12.2 a ha hne)⟩

/-! ## The heap after the loops -/

theorem spanEventLoop_spec (env : Env) (ea : Nat) (events : List Span_Event) :
    ∀ heap : Heap, ea < heap.length →
      (spanEventLoop env ea events heap).length = heap.length ∧
      (∀ a, a ≠ ea → (spanEventLoop env ea events heap).get a = heap.get a) ∧
      (spanEventLoop env ea events heap).get ea = eventAttrsFrom env events (heap.get ea) := by
  induction events with
  | nil => intro heap _; exact ⟨rfl, fun _ _ => rfl, rfl⟩
  | cons sevent rest ih =>
    intro heap hea
    cases hattrs : sevent.Attributes with
    | none =>
      simp only [spanEventLoop, eventAttrsFrom, hattrs]
      exact ih heap hea
    | some kvs =>
      simp only [spanEventLoop, eventAttrsFrom, hattrs]
      obtain ⟨h1, h2, h3⟩ := ih (heap.put ea (env.addAttributesToMap (heap.get ea) kvs))
        (by rw [Heap.length_put]; exact hea)
      refine ⟨by rw [h1, Heap.length_put], ?_, ?_⟩
      · intro a hne
        rw [h2 a hne, Heap.get_put_of_ne _ _ _ _ (Ne.symm hne)]
      · rw [h3, Heap.get_put_self _ _ _ hea]

theorem spanHeap_spec (env : Env) (heap : Heap) (span : Span) :
    (spanHeap env heap span).length = heap.length + 2 ∧
      (∀ a, a < heap.length → (spanHeap env heap span).get a = heap.get a) ∧
      (spanHeap env heap span).get heap.length = spanAttrsOf env span ∧
      (spanHeap env heap span).get (heap.length + 1) = eventAttrsOf env span := by
  have hsa0 : Heap.get (heap ++ [[]] ++ [[]]) heap.length = [] := by
    rw [Heap.get_append_left _ _ _ (by simp), Heap.get_append_singleton]
  have hea0 : Heap.get (heap ++ [[]] ++ [[]]) (heap.length + 1) = [] := by
    have := Heap.get_append_singleton (heap ++ [[]]) []
    simpa using this
  have hold : ∀ a, a < heap.length → Heap.get (heap ++ [[]] ++ [[]]) a = heap.get a := by
    intro a ha
    rw [Heap.get_append_left _ _ _ (by simp; omega), Heap.get_append_left _ _ _ ha]
  unfold spanHeap
  cases hattrs : span.Attributes with
  | none =>
    simp only []
    obtain ⟨h1, h2, h3⟩ := spanEventLoop_spec env (heap.length + 1) span.Events
      (heap ++ [[]] ++ [[]]) (by simp)
    refine ⟨by rw [h1]; simp, ?_, ?_, ?_⟩
    · intro a ha
      rw [h2 a (by omega), hold a ha]
    · rw [h2 _ (by omega), hsa0]
      simp [spanAttrsOf, hattrs]
    · rw [h3, hea0]
      rfl
  | some kvs =>
    simp only []
    obtain ⟨h1, h2, h3⟩ := spanEventLoop_spec env (heap.length + 1) span.Events
      (Heap.put (heap ++ [[]] ++ [[]]) heap.length
        (env.addAttributesToMap (Heap.get (heap ++ [[]] ++ [[]]) heap.length) kvs))
      (by rw [Heap.length_put]; simp)
    refine ⟨by rw [h1, Heap.length_put]; simp, ?_, ?_, ?_⟩
    · intro a ha
      rw [h2 a (by omega), Heap.get_put_of_ne _ _ _ _ (by omega), hold a ha]
    · rw [h2 _ (by omega), Heap.get_put_self _ _ _ (by simp), hsa0]
      simp [spanAttrsOf, hattrs]
    · rw [h3, Heap.get_put_of_ne _ _ _ _ (by omega), hea0]
      rfl

theorem spanHeap_extends (env : Env) (heap : Heap) (span : Span) :
    Heap.Extends heap (spanHeap env heap span) := by
  obtain ⟨h1, h2, _, _⟩ := spanHeap_spec env heap span
  exact ⟨by omega, h2⟩

theorem IsEventIn.mono {env : Env} {heap heap2 : Heap} {ra : Nat} {span : Span} {event : Event}
    (hext : Heap.ExtendsOff ra heap heap2) (h : IsEventIn env heap ra span event) :
    IsEventIn env heap2 ra span event := by
  obtain ⟨traceID, sa, ea, hid, hattrs, hts, hsr, hsa, hsane, hea, heane, hgs, hge⟩ := h
  exact ⟨traceID, sa, ea, hid, hattrs, hts, hsr, Nat.lt_of_lt_of_le hsa hext.1, hsane,
    Nat.lt_of_lt_of_le hea hext.1, heane, (hext.2 sa hsa hsane).trans hgs,
    (hext.2 ea hea heane).trans hge⟩

theorem translateSpan_heap (env : Env) (ra : Nat) (heap : Heap) (span : Span)
    (hra : ra < heap.length) :
    ∃ event, translateSpan env ra heap span = .ret (event, spanHeap env heap span) ∧
      IsEventIn env (spanHeap env heap span) ra span event := by
  obtain ⟨traceID, hid⟩ := BytesToTraceID_ret span.TraceId
  obtain ⟨h1, _, h3, h4⟩ := spanHeap_spec env heap span
  refine ⟨{ Attributes := spanEventAttrs span traceID ra heap.length (heap.length + 1),
             Timestamp := toInt64 span.StartTimeUnixNano,
             SampleRate := zeroSampleRate }, ?_, traceID, heap.length, heap.length + 1, hid,
    rfl, rfl, rfl, by omega, by omega, by omega, by omega, h3, h4⟩
  rw [translateSpan_eq, hid]
  rfl

theorem spanLoop_heap (env : Env) (ra : Nat) (spans : List Span) :
    ∀ (events : List Event) (heap : Heap), ra < heap.length →
      ∃ newEvents heap2, spanLoop env ra spans events heap = .ret (events ++ newEvents, heap2) ∧
        Heap.Extends heap heap2 ∧
        List.Forall₂ (IsEventIn env heap2 ra) spans newEvents := by
  induction spans with
  | nil =>
    intro events heap _
    exact ⟨[], heap, by simp [spanLoop], Heap.Extends.refl heap, List.Forall₂.nil⟩
  | cons span rest ih =>
    intro events heap hra
    obtain ⟨event, hev, hof⟩ := translateSpan_heap env ra heap span hra
    have hext1 := spanHeap_extends env heap span
    obtain ⟨more, heap2, hloop, hext2, hall⟩ := ih (events ++ [event]) (spanHeap env heap span)
      (Nat.lt_of_lt_of_le hra hext1.1)
    refine ⟨event :: more, heap2, ?_, hext1.trans hext2,
      List.Forall₂.cons (hof.mono (hext2.off ra)) hall⟩
    simp only [spanLoop, hev, Outcome.bind, hloop]
    simp

theorem addLibrary_spec (ra : Nat) (library : Option InstrumentationLibrary) (heap : Heap)
    (hra : ra < heap.length) :
    (addLibrary ra library heap).length = heap.length ∧
      (∀ a, a ≠ ra → (addLibrary ra library heap).get a = heap.get a) ∧
      (addLibrary ra library heap).get ra = libraryAttrs (heap.get ra) library := by
  cases library with
  | none => exact ⟨rfl, fun _ _ => rfl, rfl⟩
  | some library =>
    simp only [addLibrary, libraryAttrs]
    by_cases hn : library.Name.utf8ByteSize > 0 <;> by_cases hv : library.Version.utf8ByteSize > 0
    · simp only [hn, hv, if_true]
      refine ⟨by rw [Heap.length_put, Heap.length_put], ?_, ?_⟩
      · intro a hne
        rw [Heap.get_put_of_ne _ _ _ _ (Ne.symm hne), Heap.get_put_of_ne _ _ _ _ (Ne.symm hne)]
      · rw [Heap.get_put_self _ _ _ (by rw [Heap.length_put]; exact hra),
          Heap.get_put_self _ _ _ hra]
    · simp only [hn, hv, if_true, if_false]
      exact ⟨Heap.length_put _ _ _, fun a hne => Heap.get_put_of_ne _ _ _ _ (Ne.symm hne),
        Heap.get_put_self _ _ _ hra⟩
    · simp only [hn, hv, if_true, if_false]
      exact ⟨Heap.length_put _ _ _, fun a hne => Heap.get_put_of_ne _ _ _ _ (Ne.symm hne),
        Heap.get_put_self _ _ _ hra⟩
    · simp [hn, hv]

theorem librarySpanLoop_heap (env : Env) (ra : Nat)
    (librarySpans : List InstrumentationLibrarySpans) :
    ∀ (events : List Event) (heap : Heap), ra < heap.length →
      ∃ newEvents heap2,
        librarySpanLoop env ra librarySpans events heap = .ret (events ++ newEvents, heap2) ∧
        Heap.ExtendsOff ra heap heap2 ∧
        heap2.get ra =
          librarySpans.foldl
            (fun attrs librarySpan => libraryAttrs attrs librarySpan.InstrumentationLibrary)
            (heap.get ra) ∧
        List.Forall₂ (IsEventIn env heap2 ra)
          (librarySpans.flatMap fun librarySpan => librarySpan.Spans) newEvents := by
  induction librarySpans with
  | nil =>
    intro events heap _
    exact ⟨[], heap, by simp [librarySpanLoop], ⟨Nat.le_refl _, fun _ _ _ => rfl⟩, rfl,
      List.Forall₂.nil⟩
  | cons librarySpan rest ih =>
    intro events heap hra
    obtain ⟨hl0, hframe0, hget0⟩ :=
      addLibrary_spec ra librarySpan.InstrumentationLibrary heap hra
    have hra0 : ra < (addLibrary ra librarySpan.InstrumentationLibrary heap).length := by
      rw [hl0]; exact hra
    obtain ⟨evs1, heap1, h1, hext1, hall1⟩ := spanLoop_heap env ra librarySpan.Spans events
      (addLibrary ra librarySpan.InstrumentationLibrary heap) hra0
    have hra1 : ra < heap1.length := Nat.lt_of_lt_of_le hra0 hext1.1
    obtain ⟨evs2, heap2, h2, hext2, hget2, hall2⟩ := ih (events ++ evs1) heap1 hra1
    have hoff0 : Heap.ExtendsOff ra heap (addLibrary ra librarySpan.InstrumentationLibrary heap) :=
      ⟨by rw [hl0], fun a _ hne => hframe0 a hne⟩
    refine ⟨evs1 ++ evs2, heap2, ?_, (hoff0.transOff (hext1.off ra)).transOff hext2, ?_, ?_⟩
    · simp only [librarySpanLoop, h1, Outcome.bind, h2]
      simp
    · rw [hget2, hext1.2 ra hra0, hget0]
      rfl
    · rw [List.flatMap_cons]
      exact List.rel_append (List.Forall₂.imp (fun _ _ h => h.mono hext2) hall1) hall2

theorem IsBatchIn.monoBatch {env : Env} {ri : RequestInfo} {heap heap2 : Heap}
    {resourceSpan : ResourceSpans} {batch : Batch} (hext : Heap.Extends heap heap2)
    (h : IsBatchIn env ri heap resourceSpan batch) :
    IsBatchIn env ri heap2 resourceSpan batch := by
  obtain ⟨hd, hs, ra, hra, hget, hall⟩ := h
  exact ⟨hd, hs, ra, Nat.lt_of_lt_of_le hra hext.1, (hext.2 ra hra).trans hget,
    List.Forall₂.imp (fun _ _ h => h.mono (hext.off ra)) hall⟩

theorem translateResourceSpan_heap (env : Env) (ri : RequestInfo) (heap : Heap)
    (resourceSpan : ResourceSpans) :
    ∃ batch heap2, translateResourceSpan env ri heap resourceSpan = .ret (batch, heap2) ∧
      Heap.Extends heap heap2 ∧ IsBatchIn env ri heap2 resourceSpan batch := by
  unfold translateResourceSpan
  simp only [Heap.alloc]
  have hlen : ∀ m : AttrMap, heap.length < (Heap.put (heap ++ [[]]) heap.length m).length := by
    intro m; rw [Heap.length_put]; simp
  have hstart :
      ∃ heap0 : Heap,
        heap0 = (match resourceSpan.Resource with
          | some resource =>
            Heap.put (heap ++ [[]]) heap.length
              (env.addAttributesToMap (Heap.get (heap ++ [[]]) heap.length) resource.Attributes)
          | none => heap ++ [[]]) ∧
        heap.length < heap0.length ∧
        (∀ a, a < heap.length → heap0.get a = heap.get a) ∧
        heap0.get heap.length =
          (match resourceSpan.Resource with
            | some resource => env.addAttributesToMap [] resource.Attributes
            | none => []) := by
    refine ⟨_, rfl, ?_, ?_, ?_⟩
    · cases resourceSpan.Resource with
      | none => simp
      | some resource => exact hlen _
    · intro a ha
      cases resourceSpan.Resource with
      | none => exact Heap.get_append_left _ _ _ ha
      | some resource =>
        simp only []
        rw [Heap.get_put_of_ne _ _ _ _ (by omega), Heap.get_append_left _ _ _ ha]
    · cases resourceSpan.Resource with
      | none => exact Heap.get_append_singleton heap []
      | some resource =>
        simp only []
        rw [Heap.get_put_self _ _ _ (by simp), Heap.get_append_singleton]
  obtain ⟨heap0, hdef, hlt, hold, hget0⟩ := hstart
  rw [← hdef]
  obtain ⟨evs, heap2, h, hext, hget, hall⟩ := librarySpanLoop_heap env heap.length
    resourceSpan.InstrumentationLibrarySpans [] heap0 hlt
  rw [List.nil_append] at h
  refine ⟨{ Dataset := ri.Dataset, SizeBytes := env.sizeResourceSpans resourceSpan,
            Events := evs }, heap2, ?_, ?_, rfl, rfl, heap.length,
    Nat.lt_of_lt_of_le hlt hext.1, ?_, hall⟩
  · rw [h]
    rfl
  · exact ⟨Nat.le_trans (Nat.le_of_lt hlt) hext.1, fun a ha =>
      (hext.2 a (Nat.lt_trans ha hlt) (by omega)).trans (hold a ha)⟩
  · rw [hget, hget0]
    rfl

theorem resourceSpanLoop_heap (env : Env) (ri : RequestInfo)
    (resourceSpans : List ResourceSpans) :
    ∀ (batches : List Batch) (heap : Heap),
      ∃ newBatches heap2,
        resourceSpanLoop env ri resourceSpans batches heap = .ret (batches ++ newBatches, heap2) ∧
        Heap.Extends heap heap2 ∧
        List.Forall₂ (IsBatchIn env ri heap2) resourceSpans newBatches := by
  induction resourceSpans with
  | nil =>
    intro batches heap
    exact ⟨[], heap, by simp [resourceSpanLoop], Heap.Extends.refl heap, List.Forall₂.nil⟩
  | cons resourceSpan rest ih =>
    intro batches heap
    obtain ⟨batch, heap1, h1, hext1, hof⟩ := translateResourceSpan_heap env ri heap resourceSpan
    obtain ⟨more, heap2, h2, hext2, hall⟩ := ih (batches ++ [batch]) heap1
    refine ⟨batch :: more, heap2, ?_, hext1.trans hext2,
      List.Forall₂.cons (hof.monoBatch hext2) hall⟩
    simp only [resourceSpanLoop, h1, Outcome.bind, h2]
    simp

/-- The translator returns for every request; in the heap of the result the
resource map of every batch and the two maps of every event hold the flattened
attributes of their own resource-span group and span. -/
theorem TranslateTraceReq_heap (env : Env) (request : ExportTraceServiceRequest)
    (ri : RequestInfo) :
    ∃ result, TranslateTraceReq env request ri = .ret (some result, none) ∧
      List.Forall₂ (IsBatchIn env ri result.heap) request.ResourceSpans result.Batches := by
  obtain ⟨batches, heap, h, _, hall⟩ := resourceSpanLoop_heap env ri request.ResourceSpans [] []
  rw [List.nil_append] at h
  refine ⟨{ RequestSize := env.sizeRequest request, Batches := batches, heap := heap },
    ?_, hall⟩
  unfold TranslateTraceReq
  rw [h]
  rfl

/-! ## More facts about the emitted events -/

theorem utf8ByteSize_pos_iff (s : String) : s.utf8ByteSize > 0 ↔ s ≠ "" := by
  obtain ⟨cs⟩ := s
  cases cs with
  | nil => simp [String.utf8ByteSize, String.utf8ByteSize.go]
  | cons c rest =>
    have hc : 0 < c.utf8Size := Char.utf8Size_pos c
    have hne : (⟨c :: rest⟩ : String) ≠ "" := by
      intro h
      have := congrArg String.data h
      simp at this
    simp only [String.utf8ByteSize, String.utf8ByteSize.go, gt_iff_lt, ne_eq, hne,
      not_false_eq_true, iff_true]
    omega

theorem mapGet_isSome_iff (m : AttrMap) (key : String) :
    (mapGet m key).isSome ↔ key ∈ m.map Prod.fst := by
  induction m with
  | nil => simp [mapGet]
  | cons p m ih =>
    obtain ⟨k, v⟩ := p
    by_cases h : k = key
    · simp [mapGet, h]
    · have h2 : ¬ key = k := fun e => h e.symm
      simp [mapGet, h, h2, ih]

theorem spanEventAttrs_keys (span : Span) (traceID : String) (ra sa ea : Nat) :
    (spanEventAttrs span traceID ra sa ea).map Prod.fst =
      ["traceTraceID", "traceSpanID", "type", "spanKind", "spanName", "durationMs", "startTime",
        "endTime", "statusCode", "spanNumLinks", "spanNumEvents"] ++
      (if span.ParentSpanId.isSome then ["traceParentID"] else []) ++ ["error"] ++
      (match span.Status with
        | some status => if status.Message ≠ "" then ["statusMessage"] else []
        | none => []) ++
      ["resourceAttributes", "spanAttributes", "eventAttributes", "time"] := by
  obtain ⟨tid, sid, parent, name, kind, st, en, attrs, evs, links, status⟩ := span
  cases parent <;> cases status with
  | none =>
    by_cases herr : getSpanStatusCode none = Status_STATUS_CODE_ERROR <;>
      simp [spanEventAttrs, eventAttrsLiteral, mapSet, herr]
  | some status =>
    by_cases herr : getSpanStatusCode (some status) = Status_STATUS_CODE_ERROR <;>
    by_cases hmsg : status.Message = "" <;>
      simp [spanEventAttrs, eventAttrsLiteral, mapSet, herr, hmsg, utf8ByteSize_pos_iff]

theorem EachEvent.imp {request : ExportTraceServiceRequest}
    {result : TranslateTraceRequestResult} {P Q : ResourceSpans → Span → Event → Prop}
    (hPQ : ∀ resourceSpan span event, P resourceSpan span event → Q resourceSpan span event)
    (h : EachEvent request result P) : EachEvent request result Q :=
  List.Forall₂.imp (fun resourceSpan _ hb => List.Forall₂.imp (hPQ resourceSpan) hb) h

/-- The translator returns for every request, and every event of the result has
the facts of `EventFacts` for its span and resource-span group. -/
theorem TranslateTraceReq_facts (env : Env) (request : ExportTraceServiceRequest)
    (ri : RequestInfo) :
    ∃ result, TranslateTraceReq env request ri = .ret (some result, none) ∧
      EachEvent request result (EventFacts env result.heap) := by
  obtain ⟨result, hret, hall⟩ := TranslateTraceReq_heap env request ri
  refine ⟨result, hret, List.Forall₂.imp ?_ hall⟩
  rintro resourceSpan batch ⟨_, _, ra, _, hget, hev⟩
  refine List.Forall₂.imp ?_ hev
  rintro span event ⟨traceID, sa, ea, hid, hattrs, hts, hsr, _, _, _, _, hgs, hge⟩
  exact ⟨traceID, ra, sa, ea, hid, hattrs, hts, hsr, hget, hgs, hge⟩

theorem mapGet_spanEventAttrs_status (span : Span) (traceID : String) (ra sa ea : Nat) :
    mapGet (spanEventAttrs span traceID ra sa ea) "statusCode" =
        some (.statusCode (getSpanStatusCode span.Status)) ∧
      mapGet (spanEventAttrs span traceID ra sa ea) "error" =
        some (.bool (decide (getSpanStatusCode span.Status = Status_STATUS_CODE_ERROR))) := by
  obtain ⟨tid, sid, parent, name, kind, st, en, attrs, evs, links, status⟩ := span
  cases status with
  | none =>
    cases parent <;>
      simp [spanEventAttrs, mapGet_mapSet, mapGet_ite, eventAttrsLiteral, mapGet,
        getSpanStatusCode, Status_STATUS_CODE_UNSET, Status_STATUS_CODE_ERROR]
  | some status =>
    by_cases herr : getSpanStatusCode (some status) = Status_STATUS_CODE_ERROR <;>
    cases parent <;>
      simp [spanEventAttrs, mapGet_mapSet, mapGet_ite, eventAttrsLiteral, mapGet, herr]

theorem mapGet_spanEventAttrs_kind (span : Span) (traceID : String) (ra sa ea : Nat) :
    mapGet (spanEventAttrs span traceID ra sa ea) "spanKind" =
        some (.string (getSpanKind span.Kind)) ∧
      mapGet (spanEventAttrs span traceID ra sa ea) "type" =
        some (.string (getSpanKind span.Kind)) := by
  obtain ⟨tid, sid, parent, name, kind, st, en, attrs, evs, links, status⟩ := span
  cases parent <;> cases status <;>
    simp [spanEventAttrs, mapGet_mapSet, mapGet_ite, eventAttrsLiteral, mapGet]

theorem mapGet_spanEventAttrs_durationMs (span : Span) (traceID : String) (ra sa ea : Nat) :
    mapGet (spanEventAttrs span traceID ra sa ea) "durationMs" =
      some (.float64 (.div (.ofUInt64 (uint64Sub span.EndTimeUnixNano span.StartTimeUnixNano))
        (.ofInt timeMillisecond))) := by
  obtain ⟨tid, sid, parent, name, kind, st, en, attrs, evs, links, status⟩ := span
  cases parent <;> cases status <;>
    simp [spanEventAttrs, mapGet_mapSet, mapGet_ite, eventAttrsLiteral, mapGet]

theorem mapGet_spanEventAttrs_time (span : Span) (traceID : String) (ra sa ea : Nat) :
    mapGet (spanEventAttrs span traceID ra sa ea) "time" =
        some (.int64 (toInt64 span.StartTimeUnixNano)) ∧
      mapGet (spanEventAttrs span traceID ra sa ea) "startTime" =
        some (.int64 (toInt64 span.StartTimeUnixNano)) := by
  obtain ⟨tid, sid, parent, name, kind, st, en, attrs, evs, links, status⟩ := span
  cases parent <;> cases status <;>
    simp [spanEventAttrs, mapGet_mapSet, mapGet_ite, eventAttrsLiteral, mapGet]

theorem mapGet_spanEventAttrs_parent (span : Span) (traceID : String) (ra sa ea : Nat)
    (parent : List Byte) (h : span.ParentSpanId = some parent) :
    mapGet (spanEventAttrs span traceID ra sa ea) "traceParentID" =
      some (.string (hexEncodeToString parent)) := by
  obtain ⟨tid, sid, parent0, name, kind, st, en, attrs, evs, links, status⟩ := span
  simp only at h
  subst h
  cases status <;>
    simp [spanEventAttrs, mapGet_mapSet, mapGet_ite, eventAttrsLiteral, mapGet]

theorem mapGet_spanEventAttrs_message (span : Span) (traceID : String) (ra sa ea : Nat)
    (status : Status) (h : span.Status = some status) (hmsg : status.Message ≠ "") :
    mapGet (spanEventAttrs span traceID ra sa ea) "statusMessage" =
      some (.string status.Message) := by
  obtain ⟨tid, sid, parent, name, kind, st, en, attrs, evs, links, status0⟩ := span
  simp only at h
  subst h
  have hpos : 0 < status.Message.utf8ByteSize := (utf8ByteSize_pos_iff _).mpr hmsg
  cases parent <;>
    simp [spanEventAttrs, mapGet_mapSet, mapGet_ite, eventAttrsLiteral, mapGet, hpos]

theorem mapGet_spanEventAttrs_refs (span : Span) (traceID : String) (ra sa ea : Nat) :
    mapGet (spanEventAttrs span traceID ra sa ea) "resourceAttributes" = some (.mapRef ra) ∧
      mapGet (spanEventAttrs span traceID ra sa ea) "spanAttributes" = some (.mapRef sa) ∧
      mapGet (spanEventAttrs span traceID ra sa ea) "eventAttributes" = some (.mapRef ea) := by
  obtain ⟨tid, sid, parent, name, kind, st, en, attrs, evs, links, status⟩ := span
  cases parent <;> cases status <;>
    simp [spanEventAttrs, mapGet_mapSet, mapGet_ite, eventAttrsLiteral, mapGet]

theorem toInt64_of_lt (n : Nat) (h : n < 9223372036854775808) : toInt64 n = n := by
  unfold toInt64
  omega

theorem uint64Sub_of_le (a b : Nat) (hle : b ≤ a) (ha : a < 18446744073709551616) :
    uint64Sub a b = a - b := by
  unfold uint64Sub
  omega

/-! ## The claims on the attributes of an event -/

/-- C11: for every span, the attributes of the emitted event hold the key `error`,
with the value `true` exactly when the reconciled status code, the value stored
under `statusCode` (`getSpanStatusCode(span.Status)`), is ERROR, and `false`
otherwise. -/
theorem error_iff_status_error (env : Env) (request : ExportTraceServiceRequest)
    (ri : RequestInfo) :
    ∃ result, TranslateTraceReq env request ri = .ret (some result, none) ∧
      EachEvent request result fun _ span event =>
        mapGet event.Attributes "statusCode" =
            some (.statusCode (getSpanStatusCode span.Status)) ∧
          mapGet event.Attributes "error" =
            some (.bool (decide (getSpanStatusCode span.Status = Status_STATUS_CODE_ERROR))) ∧
          (mapGet event.Attributes "error" = some (.bool true) ↔
            getSpanStatusCode span.Status = Status_STATUS_CODE_ERROR) := by
  obtain ⟨result, hret, hall⟩ := TranslateTraceReq_facts env request ri
  refine ⟨result, hret, hall.imp ?_⟩
  rintro _ span event ⟨traceID, ra, sa, ea, _, hattrs, _, _, _, _, _⟩
  obtain ⟨h1, h2⟩ := mapGet_spanEventAttrs_status span traceID ra sa ea
  rw [hattrs]
  refine ⟨h1, h2, ?_⟩
  rw [h2]
  simp

/-- C13: `getSpanKind` maps CLIENT, SERVER, PRODUCER, CONSUMER and INTERNAL to
their names and every other enum value, UNSPECIFIED among them, to
`"unspecified"`, so its result is one of six strings; the event of a span holds
this string under both `spanKind` and `type`. -/
theorem getSpanKind_mapping :
    getSpanKind Span_SPAN_KIND_UNSPECIFIED = "unspecified" ∧
      getSpanKind Span_SPAN_KIND_CLIENT = "client" ∧
      getSpanKind Span_SPAN_KIND_SERVER = "server" ∧
      getSpanKind Span_SPAN_KIND_PRODUCER = "producer" ∧
      getSpanKind Span_SPAN_KIND_CONSUMER = "consumer" ∧
      getSpanKind Span_SPAN_KIND_INTERNAL = "internal" ∧
      (∀ kind : Int, kind ≠ Span_SPAN_KIND_CLIENT → kind ≠ Span_SPAN_KIND_SERVER →
        kind ≠ Span_SPAN_KIND_PRODUCER → kind ≠ Span_SPAN_KIND_CONSUMER →
        kind ≠ Span_SPAN_KIND_INTERNAL → getSpanKind kind = "unspecified") ∧
      (∀ kind : Int, getSpanKind kind ∈
        ["unspecified", "client", "server", "producer", "consumer", "internal"]) ∧
      ∀ (env : Env) (request : ExportTraceServiceRequest) (ri : RequestInfo),
        ∃ result, TranslateTraceReq env request ri = .ret (some result, none) ∧
          EachEvent request result fun _ span event =>
            mapGet event.Attributes "spanKind" = some (.string (getSpanKind span.Kind)) ∧
              mapGet event.Attributes "type" = some (.string (getSpanKind span.Kind)) := by
  refine ⟨rfl, rfl, rfl, rfl, rfl, rfl, ?_, ?_, ?_⟩
  · intro kind h1 h2 h3 h4 h5
    simp [getSpanKind, h1, h2, h3, h4, h5]
  · intro kind
    unfold getSpanKind
    split_ifs <;> simp
  · intro env request ri
    obtain ⟨result, hret, hall⟩ := TranslateTraceReq_facts env request ri
    refine ⟨result, hret, hall.imp ?_⟩
    rintro _ span event ⟨traceID, ra, sa, ea, _, hattrs, _, _, _, _, _⟩
    rw [hattrs]
    exact mapGet_spanEventAttrs_kind span traceID ra sa ea

theorem mem_event_keys (key : String) (X Y : List String) :
    key ∈ ["traceTraceID", "traceSpanID", "type", "spanKind", "spanName", "durationMs",
        "startTime", "endTime", "statusCode", "spanNumLinks", "spanNumEvents"] ++ X ++
        ["error"] ++ Y ++ ["resourceAttributes", "spanAttributes", "eventAttributes", "time"] ↔
      key ∈ baseKeys ∨ key ∈ X ∨ key ∈ Y := by
  have hb : baseKeys =
      ["traceTraceID", "traceSpanID", "type", "spanKind", "spanName", "durationMs",
        "startTime", "endTime", "statusCode", "spanNumLinks", "spanNumEvents"] ++
        ["error"] ++ ["resourceAttributes", "spanAttributes", "eventAttributes", "time"] := rfl
  rw [hb]
  simp only [List.mem_append]
  tauto

/-- C14, as the code has it: for every span, the keys of the attributes of the
emitted event are the sixteen keys of `baseKeys`, plus `traceParentID` exactly
when the parent span ID is not nil, plus `statusMessage` exactly when the status
is not nil and its message is not empty; `traceParentID` holds the lowercase hex
encoding of the parent ID and `statusMessage` the message; `time` and
`startTime` hold the same value, which is the start time in nanoseconds for
every span that starts less than `2^63` nanoseconds after the epoch. -/
theorem event_key_set (env : Env) (request : ExportTraceServiceRequest) (ri : RequestInfo) :
    ∃ result, TranslateTraceReq env request ri = .ret (some result, none) ∧
      EachEvent request result fun _ span event =>
        (∀ key, (mapGet event.Attributes key).isSome ↔
          key ∈ baseKeys ∨ (key = "traceParentID" ∧ span.ParentSpanId ≠ none) ∨
            (key = "statusMessage" ∧
              ∃ status, span.Status = some status ∧ status.Message ≠ "")) ∧
        (∀ parent, span.ParentSpanId = some parent →
          mapGet event.Attributes "traceParentID" =
            some (.string (hexEncodeToString parent))) ∧
        (∀ status, span.Status = some status → status.Message ≠ "" →
          mapGet event.Attributes "statusMessage" = some (.string status.Message)) ∧
        mapGet event.Attributes "time" = mapGet event.Attributes "startTime" ∧
        (span.StartTimeUnixNano < 9223372036854775808 →
          mapGet event.Attributes "time" = some (.int64 span.StartTimeUnixNano) ∧
          mapGet event.Attributes "startTime" = some (.int64 span.StartTimeUnixNano)) := by
  obtain ⟨result, hret, hall⟩ := TranslateTraceReq_facts env request ri
  refine ⟨result, hret, hall.imp ?_⟩
  rintro _ span event ⟨traceID, ra, sa, ea, _, hattrs, _, _, _, _, _⟩
  rw [hattrs]
  obtain ⟨ht1, ht2⟩ := mapGet_spanEventAttrs_time span traceID ra sa ea
  refine ⟨?_, fun parent h => mapGet_spanEventAttrs_parent span traceID ra sa ea parent h,
    fun status h hmsg => mapGet_spanEventAttrs_message span traceID ra sa ea status h hmsg,
    ht1.trans ht2.symm, fun hlt => ?_⟩
  · intro key
    rw [mapGet_isSome_iff, spanEventAttrs_keys, mem_event_keys]
    have hX : key ∈ (if span.ParentSpanId.isSome then ["traceParentID"] else []) ↔
        key = "traceParentID" ∧ span.ParentSpanId ≠ none := by
      cases span.ParentSpanId <;> simp
    have hY : key ∈ (match span.Status with
          | some status => if status.Message ≠ "" then ["statusMessage"] else []
          | none => []) ↔
        key = "statusMessage" ∧ ∃ status, span.Status = some status ∧ status.Message ≠ "" := by
      cases span.Status with
      | none => simp
      | some status => by_cases hmsg : status.Message = "" <;> simp [hmsg]
    rw [hX, hY]
  · rw [ht1, ht2, toInt64_of_lt _ hlt]
    exact ⟨rfl, rfl⟩

/-- C14 fails as stated: the span of `lateStartRequest` starts `2^63`
nanoseconds after the epoch, and `time` and `startTime` of its event hold
`-9223372036854775808`, not the start time. -/
theorem time_of_late_start :
    (plainSpan "s" 9223372036854775808 9223372036854775809).StartTimeUnixNano =
        9223372036854775808 ∧
      (∃ result,
        TranslateTraceReq testEnv lateStartRequest { Dataset := "ds", ContentEncoding := "" } =
          .ret (some result, none) ∧
        result.Batches.map (fun batch => batch.Events.map fun event =>
            (mapGet event.Attributes "time", mapGet event.Attributes "startTime")) =
          [[(some (.int64 (-9223372036854775808)), some (.int64 (-9223372036854775808)))]]) ∧
      (-9223372036854775808 : Int) ≠ 9223372036854775808 :=
  ⟨rfl, ⟨_, rfl, rfl⟩, by decide⟩

/-! ## Duration -/

/-- The value stored under `durationMs` for every span: the `float64` conversion
of the `uint64` difference of the two timestamps, divided by the conversion of
`time.Millisecond`. The difference is `end - start` when the end is not before
the start. -/
theorem durationMs_value (env : Env) (request : ExportTraceServiceRequest)
    (ri : RequestInfo) :
    ∃ result, TranslateTraceReq env request ri = .ret (some result, none) ∧
      EachEvent request result fun _ span event =>
        mapGet event.Attributes "durationMs" =
            some (.float64
              (.div (.ofUInt64 (uint64Sub span.EndTimeUnixNano span.StartTimeUnixNano))
                (.ofInt timeMillisecond))) ∧
          (span.StartTimeUnixNano ≤ span.EndTimeUnixNano →
            span.EndTimeUnixNano < 18446744073709551616 →
            uint64Sub span.EndTimeUnixNano span.StartTimeUnixNano =
              span.EndTimeUnixNano - span.StartTimeUnixNano) := by
  obtain ⟨result, hret, hall⟩ := TranslateTraceReq_facts env request ri
  refine ⟨result, hret, hall.imp ?_⟩
  rintro _ span event ⟨traceID, ra, sa, ea, _, hattrs, _, _, _, _, _⟩
  refine ⟨?_, fun hle hlt => uint64Sub_of_le _ _ hle hlt⟩
  rw [hattrs]
  exact mapGet_spanEventAttrs_durationMs span traceID ra sa ea

/-- C12: the code does not do what the claim says. The span of
`backwardsRequest` ends before it starts (start 2, end 1). Its event holds
`startTime` 2 and `endTime` 1, a difference of -1 ns, and under `durationMs` the
value `float64(18446744073709551615) / float64(1000000)`: the difference of the
two `uint64` timestamps has wrapped around to `2^64 - 1` before the conversion,
so the dividend is the conversion of an unsigned number and not of -1. -/
theorem durationMs_backwards_wraps :
    (plainSpan "s" 2 1).EndTimeUnixNano < (plainSpan "s" 2 1).StartTimeUnixNano ∧
      uint64Sub (plainSpan "s" 2 1).EndTimeUnixNano (plainSpan "s" 2 1).StartTimeUnixNano =
        18446744073709551615 ∧
      ∃ result,
        TranslateTraceReq testEnv backwardsRequest { Dataset := "ds", ContentEncoding := "" } =
          .ret (some result, none) ∧
        result.Batches.map (fun batch => batch.Events.map fun event =>
            (mapGet event.Attributes "startTime", mapGet event.Attributes "endTime",
              mapGet event.Attributes "durationMs")) =
          [[(some (.int64 2), some (.int64 1),
              some (.float64 (.div (.ofUInt64 18446744073709551615) (.ofInt 1000000))))]] :=
  ⟨by decide, by decide, _, rfl, rfl⟩

/-! ## The resource map and the library names -/

theorem mapGet_libraryAttrs_name (attrs : AttrMap) (library : InstrumentationLibrary)
    (h : library.Name ≠ "") :
    mapGet (libraryAttrs attrs (some library)) "library.name" = some (.string library.Name) := by
  have hpos : 0 < library.Name.utf8ByteSize := (utf8ByteSize_pos_iff _).mpr h
  simp [libraryAttrs, hpos, mapGet_mapSet, mapGet_ite]

theorem mapGet_libraryAttrs_version (attrs : AttrMap) (library : InstrumentationLibrary)
    (h : library.Version ≠ "") :
    mapGet (libraryAttrs attrs (some library)) "library.version" =
      some (.string library.Version) := by
  have hpos : 0 < library.Version.utf8ByteSize := (utf8ByteSize_pos_iff _).mpr h
  simp [libraryAttrs, hpos, mapGet_mapSet, mapGet_ite]

/-- The library writes of later groups keep `library.name` when each of them
carries no library, an empty name or the same name. -/
theorem mapGet_foldl_libraryAttrs_name (name : String) :
    ∀ (later : List InstrumentationLibrarySpans) (attrs : AttrMap),
      mapGet attrs "library.name" = some (.string name) →
      (∀ group ∈ later, ∀ library, group.InstrumentationLibrary = some library →
        library.Name = "" ∨ library.Name = name) →
      mapGet
          (later.foldl
            (fun attrs librarySpan => libraryAttrs attrs librarySpan.InstrumentationLibrary)
            attrs) "library.name" = some (.string name) := by
  intro later
  induction later with
  | nil => intro attrs h _; exact h
  | cons group rest ih =>
    intro attrs h hall
    rw [List.foldl_cons]
    refine ih _ ?_ (fun g hg => hall g (List.mem_cons_of_mem _ hg))
    cases hlib : group.InstrumentationLibrary with
    | none => exact h
    | some library =>
      rcases hall group (List.mem_cons_self _ _) library hlib with hempty | hsame
      · have h0 : ¬ 0 < library.Name.utf8ByteSize := by
          rw [← gt_iff_lt, utf8ByteSize_pos_iff]; simp [hempty]
        simp [libraryAttrs, h0, mapGet_mapSet, mapGet_ite, h]
      · by_cases hn : library.Name = ""
        · have h0 : ¬ 0 < library.Name.utf8ByteSize := by
            rw [← gt_iff_lt, utf8ByteSize_pos_iff]; simp [hn]
          simp [libraryAttrs, h0, mapGet_mapSet, mapGet_ite, h]
        · rw [← hsame]
          exact mapGet_libraryAttrs_name attrs library hn

theorem mapGet_foldl_libraryAttrs_version (version : String) :
    ∀ (later : List InstrumentationLibrarySpans) (attrs : AttrMap),
      mapGet attrs "library.version" = some (.string version) →
      (∀ group ∈ later, ∀ library, group.InstrumentationLibrary = some library →
        library.Version = "" ∨ library.Version = version) →
      mapGet
          (later.foldl
            (fun attrs librarySpan => libraryAttrs attrs librarySpan.InstrumentationLibrary)
            attrs) "library.version" = some (.string version) := by
  intro later
  induction later with
  | nil => intro attrs h _; exact h
  | cons group rest ih =>
    intro attrs h hall
    rw [List.foldl_cons]
    refine ih _ ?_ (fun g hg => hall g (List.mem_cons_of_mem _ hg))
    cases hlib : group.InstrumentationLibrary with
    | none => exact h
    | some library =>
      rcases hall group (List.mem_cons_self _ _) library hlib with hempty | hsame
      · have h0 : ¬ 0 < library.Version.utf8ByteSize := by
          rw [← gt_iff_lt, utf8ByteSize_pos_iff]; simp [hempty]
        simp [libraryAttrs, h0, mapGet_mapSet, mapGet_ite, h]
      · by_cases hn : library.Version = ""
        · have h0 : ¬ 0 < library.Version.utf8ByteSize := by
            rw [← gt_iff_lt, utf8ByteSize_pos_iff]; simp [hn]
          simp [libraryAttrs, h0, mapGet_mapSet, mapGet_ite, h]
        · rw [← hsame]
          exact mapGet_libraryAttrs_version attrs library hn

theorem forall₂_getElem_some {α β : Type} {R : α → β → Prop} {l1 : List α} {l2 : List β}
    (h : List.Forall₂ R l1 l2) :
    ∀ (i : Nat) (a : α), l1[i]? = some a → ∃ b, l2[i]? = some b ∧ R a b := by
  induction h with
  | nil => intro i a ha; simp at ha
  | cons hab _ ih =>
    intro i a ha
    cases i with
    | zero =>
      simp only [List.getElem?_cons_zero, Option.some.injEq] at ha
      subst ha
      exact ⟨_, by simp, hab⟩
    | succ i =>
      simp only [List.getElem?_cons_succ] at ha ⊢
      exact ih i a ha

theorem EachEvent.group {request : ExportTraceServiceRequest}
    {result : TranslateTraceRequestResult} {P : ResourceSpans → Span → Event → Prop}
    (h : EachEvent request result P) :
    EachGroupEvent request result fun resourceSpan _ _ span event =>
      P resourceSpan span event := by
  refine List.Forall₂.imp ?_ h
  intro resourceSpan batch hb before librarySpan later hsplit k span hk
  have hidx : (spansOf resourceSpan)[(before.flatMap fun group => group.Spans).length + k]? =
      some span := by
    simp only [spansOf, hsplit, List.flatMap_append, List.flatMap_cons]
    rw [List.getElem?_append_right (Nat.le_add_right _ _), Nat.add_sub_cancel_left]
    have hlt : k < librarySpan.Spans.length := by
      by_contra hge
      rw [List.getElem?_eq_none (by omega)] at hk
      cases hk
    rw [List.getElem?_append_left hlt]
    exact hk
  exact forall₂_getElem_some hb _ span hidx

theorem subMap_of_mapRef (heap : Heap) (attrs : AttrMap) (key : String) (addr : Nat)
    (h : mapGet attrs key = some (.mapRef addr)) :
    subMap heap attrs key = some (heap.get addr) := by
  simp [subMap, h]

/-- C15, as the code has it by design: in the result of `TranslateTraceReq`, for
every span whose own library span group carries a non-empty library name
(respectively version), the `resourceAttributes` sub-map of the span's event
maps `library.name` (respectively `library.version`) to the name (version) of
that group, provided that every later library span group of the same
resource-span group carries no library, an empty name (version) or the same name
(version). -/
theorem library_name_of_own_group (env : Env) (request : ExportTraceServiceRequest)
    (ri : RequestInfo) :
    ∃ result, TranslateTraceReq env request ri = .ret (some result, none) ∧
      EachGroupEvent request result fun _ later librarySpan _ event =>
        ∃ attrs, subMap result.heap event.Attributes "resourceAttributes" = some attrs ∧
          ∀ library, librarySpan.InstrumentationLibrary = some library →
            (library.Name ≠ "" →
              (∀ group ∈ later, ∀ other, group.InstrumentationLibrary = some other →
                other.Name = "" ∨ other.Name = library.Name) →
              mapGet attrs "library.name" = some (.string library.Name)) ∧
            (library.Version ≠ "" →
              (∀ group ∈ later, ∀ other, group.InstrumentationLibrary = some other →
                other.Version = "" ∨ other.Version = library.Version) →
              mapGet attrs "library.version" = some (.string library.Version)) := by
  obtain ⟨result, hret, hall⟩ := TranslateTraceReq_facts env request ri
  refine ⟨result, hret, List.Forall₂.imp ?_ (EachEvent.group hall)⟩
  intro resourceSpan batch hb before librarySpan later hsplit k span hk
  obtain ⟨event, hidx, traceID, ra, sa, ea, _, hattrs, _, _, hget, _, _⟩ :=
    hb before librarySpan later hsplit k span hk
  refine ⟨event, hidx, resourceAttrsOf env resourceSpan, ?_, ?_⟩
  · rw [← hget]
    apply subMap_of_mapRef
    rw [hattrs]
    exact (mapGet_spanEventAttrs_refs span traceID ra sa ea).1
  · intro library hlib
    have hfold : resourceAttrsOf env resourceSpan =
        later.foldl
          (fun attrs group => libraryAttrs attrs group.InstrumentationLibrary)
          (libraryAttrs
            (before.foldl
              (fun attrs group => libraryAttrs attrs group.InstrumentationLibrary)
              (match resourceSpan.Resource with
                | some resource => env.addAttributesToMap [] resource.Attributes
                | none => []))
            (some library)) := by
      unfold resourceAttrsOf
      rw [hsplit, List.foldl_append, List.foldl_cons, hlib]
    rw [hfold]
    exact ⟨fun hname hlater =>
        mapGet_foldl_libraryAttrs_name library.Name later _
          (mapGet_libraryAttrs_name _ library hname) hlater,
      fun hversion hlater =>
        mapGet_foldl_libraryAttrs_version library.Version later _
          (mapGet_libraryAttrs_version _ library hversion) hlater⟩

/-- C15 fails as stated: in `twoLibrariesRequest` the span `s2` belongs to a
library span group without a library, and the `resourceAttributes` sub-map of its
event holds `library.name`, the name `a` of the other library span group. -/
theorem library_name_from_other_group :
    ∃ result,
      TranslateTraceReq testEnv twoLibrariesRequest { Dataset := "ds", ContentEncoding := "" } =
        .ret (some result, none) ∧
      result.Batches.map (fun batch => batch.Events.map fun event =>
          (mapGet event.Attributes "spanName",
            (subMap result.heap event.Attributes "resourceAttributes").bind fun attrs =>
              mapGet attrs "library.name")) =
        [[(some (.string "s1"), some (.string "a")),
          (some (.string "s2"), some (.string "a"))]] :=
  ⟨_, rfl, rfl⟩

/-! ## The span and span-event attributes -/

theorem flattenAttributes_cons (attrs : AttrMap) (kv : KeyValue) (rest : List KeyValue) :
    flattenAttributes attrs (kv :: rest) =
      flattenAttributes (mapSet attrs kv.Key (nativeOf kv)) rest := by
  cases h : kv.Value <;> simp [flattenAttributes, nativeOf, h]

theorem flattenAttributes_append (kvs1 kvs2 : List KeyValue) :
    ∀ attrs : AttrMap,
      flattenAttributes attrs (kvs1 ++ kvs2) =
        flattenAttributes (flattenAttributes attrs kvs1) kvs2 := by
  induction kvs1 with
  | nil => intro attrs; simp [flattenAttributes]
  | cons kv rest ih =>
    intro attrs
    rw [List.cons_append, flattenAttributes_cons, flattenAttributes_cons, ih]

/-- In the map that `flattenAttributes` gives, a key holds the value of the last
pair of the list with that key, and is as before when no pair has the key. -/
theorem mapGet_flattenAttributes (kvs : List KeyValue) (key : String) :
    ∀ attrs : AttrMap,
      mapGet (flattenAttributes attrs kvs) key =
        match lastValue kvs key with
        | some v => some v
        | none => mapGet attrs key := by
  induction kvs with
  | nil => intro attrs; simp [flattenAttributes, lastValue]
  | cons kv rest ih =>
    intro attrs
    rw [flattenAttributes_cons, ih]
    cases hlast : lastValue rest key with
    | some v => simp [lastValue, hlast]
    | none =>
      by_cases hk : kv.Key = key <;> simp [lastValue, hlast, hk, mapGet_mapSet]

theorem eventAttrsFrom_flatten (env : Env) (h : env.addAttributesToMap = flattenAttributes)
    (events : List Span_Event) :
    ∀ attrs : AttrMap,
      eventAttrsFrom env events attrs =
        flattenAttributes attrs (events.flatMap fun sevent => sevent.Attributes.getD []) := by
  induction events with
  | nil => intro attrs; simp [eventAttrsFrom, flattenAttributes]
  | cons sevent rest ih =>
    intro attrs
    rw [List.flatMap_cons, flattenAttributes_append]
    cases hattrs : sevent.Attributes with
    | none => simp [eventAttrsFrom, hattrs, ih, flattenAttributes]
    | some kvs => simp [eventAttrsFrom, hattrs, ih, h]

/-- C16: for every span, the `spanAttributes` sub-map of its event is the
flattening of the span's own attribute list into an empty map, and the
`eventAttributes` sub-map is the flattening of the attribute lists of the span's
span-events, in order, into one empty map; both are functions of the span alone.
With the flattener of the spec, a key of `eventAttributes` holds the value of
the last pair with that key over the span-events in order. -/
theorem span_and_event_attributes (env : Env) (request : ExportTraceServiceRequest)
    (ri : RequestInfo) :
    ∃ result, TranslateTraceReq env request ri = .ret (some result, none) ∧
      EachEvent request result fun _ span event =>
        subMap result.heap event.Attributes "spanAttributes" = some (spanAttrsOf env span) ∧
          subMap result.heap event.Attributes "eventAttributes" =
            some (eventAttrsOf env span) ∧
          (env.addAttributesToMap = flattenAttributes →
            ∀ key, mapGet (eventAttrsOf env span) key =
              lastValue (spanEventAttributes span) key) := by
  obtain ⟨result, hret, hall⟩ := TranslateTraceReq_facts env request ri
  refine ⟨result, hret, hall.imp ?_⟩
  rintro _ span event ⟨traceID, ra, sa, ea, _, hattrs, _, _, _, hgs, hge⟩
  obtain ⟨_, hs, he⟩ := mapGet_spanEventAttrs_refs span traceID ra sa ea
  refine ⟨?_, ?_, ?_⟩
  · rw [← hgs]
    apply subMap_of_mapRef
    rw [hattrs]
    exact hs
  · rw [← hge]
    apply subMap_of_mapRef
    rw [hattrs]
    exact he
  · intro hflat key
    unfold eventAttrsOf spanEventAttributes
    rw [eventAttrsFrom_flatten env hflat, mapGet_flattenAttributes]
    cases lastValue (span.Events.flatMap fun sevent => sevent.Attributes.getD []) key <;>
      simp [mapGet]

/-- An example of the shared resource map: in `twoNamesRequest` the two library
span groups carry the names `a` and `b`, and the events of both spans show
`library.name` `b` in the result. -/
theorem library_name_shared_example :
    ∃ result,
      TranslateTraceReq testEnv twoNamesRequest { Dataset := "ds", ContentEncoding := "" } =
        .ret (some result, none) ∧
      result.Batches.map (fun batch => batch.Events.map fun event =>
          (mapGet event.Attributes "spanName",
            (subMap result.heap event.Attributes "resourceAttributes").bind fun attrs =>
              mapGet attrs "library.name")) =
        [[(some (.string "s1"), some (.string "b")),
          (some (.string "s2"), some (.string "b"))]] :=
  ⟨_, rfl, rfl⟩

/-- An example of the span and span-event attributes: the span of
`twoSpanEventsRequest` has the attribute `own` and two span-events with the key
`k`; its event holds `own` under `spanAttributes` and the value of the second
span-event under `eventAttributes`. -/
theorem span_and_event_attributes_example :
    ∃ result,
      TranslateTraceReq testEnv twoSpanEventsRequest
          { Dataset := "ds", ContentEncoding := "" } = .ret (some result, none) ∧
      result.Batches.map (fun batch => batch.Events.map fun event =>
          (subMap result.heap event.Attributes "spanAttributes",
            subMap result.heap event.Attributes "eventAttributes")) =
        [[(some [("own", .bool true)], some [("k", .string "second")])]] :=
  ⟨_, rfl, rfl⟩

/-! ## Sample-rate extraction -/

theorem mapGet_mapDelete_self (m : AttrMap) (key : String) :
    mapGet (mapDelete m key) key = none := by
  induction m with
  | nil => rfl
  | cons p m ih =>
    obtain ⟨k, v⟩ := p
    by_cases h : k = key <;> simp [mapDelete, mapGet, h, ih]

theorem mapGet_mapDelete_of_ne (m : AttrMap) (key key2 : String) (hne : key ≠ key2) :
    mapGet (mapDelete m key) key2 = mapGet m key2 := by
  induction m with
  | nil => rfl
  | cons p m ih =>
    obtain ⟨k, v⟩ := p
    by_cases h : k = key
    · subst h
      simp [mapDelete, mapGet, hne, ih]
    · by_cases h2 : k = key2
      · subst h2
        simp [mapDelete, mapGet, h]
      · simp [mapDelete, mapGet, h, h2, ih]

theorem toInt32_of_range (i : Int) (hlow : -2147483648 ≤ i) (hhigh : i ≤ 2147483647) :
    toInt32 i = i := by
  unfold toInt32
  omega

/-- The result of `getSampleRate` when a key is matched. -/
theorem getSampleRate_matched (env : Env) (attrs : AttrMap) (key : String)
    (hkey : getSampleRateKey attrs = key) (hne : key ≠ "") :
    getSampleRate env attrs = (sampleRateOf env (mapGet attrs key), mapDelete attrs key) := by
  simp [getSampleRate, hkey, hne]

theorem clamp_int32 (v : Int) (hlow : -2147483648 ≤ v) :
    (if v < MaxInt32 then toInt32 v else MaxInt32) = min v 2147483647 := by
  unfold MaxInt32
  by_cases h : v < 2147483647
  · rw [if_pos h, toInt32_of_range v hlow (by omega)]
    omega
  · rw [if_neg h]
    omega

/-- C17: for every attribute map that holds neither the key `sampleRate` nor the
key `SampleRate`, `getSampleRate` returns 0 and leaves the map as it is. -/
theorem getSampleRate_absent (env : Env) (attrs : AttrMap)
    (h1 : mapGet attrs "sampleRate" = none) (h2 : mapGet attrs "SampleRate" = none) :
    getSampleRate env attrs = (0, attrs) := by
  simp [getSampleRate, getSampleRateKey, h1, h2, zeroSampleRate]

/-- C17 at a map whose keys differ from `sampleRate` in case only. -/
theorem getSampleRate_absent_witness :
    getSampleRate testEnv [("samplerate", .string "5"), ("SAMPLERATE", .int32 7)] =
      (0, [("samplerate", .string "5"), ("SAMPLERATE", .int32 7)]) :=
  getSampleRate_absent testEnv _ rfl rfl

/-- C18, as the code has it: for every attribute map whose matched sample-rate
key holds a string that `strconv.Atoi` parses as the integer `n`, with
`n ≥ -2147483648`, `getSampleRate` returns `n` when `n ≤ 2147483647` and
2147483647 when `n` is larger, and removes the key from the map. -/
theorem getSampleRate_string (env : Env) (attrs : AttrMap) (key v : String) (n : Int)
    (hkey : getSampleRateKey attrs = key) (hne : key ≠ "")
    (hval : mapGet attrs key = some (.string v)) (hparse : env.atoi v = some n)
    (hlow : -2147483648 ≤ n) :
    (getSampleRate env attrs).1 = min n 2147483647 ∧
      (n ≤ 2147483647 → (getSampleRate env attrs).1 = n) ∧
      (2147483647 < n → (getSampleRate env attrs).1 = 2147483647) ∧
      (getSampleRate env attrs).2 = mapDelete attrs key ∧
      mapGet (getSampleRate env attrs).2 key = none := by
  rw [getSampleRate_matched env attrs key hkey hne]
  have hrate : sampleRateOf env (mapGet attrs key) = min n 2147483647 := by
    rw [hval]
    simp only [sampleRateOf, hparse]
    exact clamp_int32 n hlow
  refine ⟨hrate, ?_, ?_, rfl, mapGet_mapDelete_self attrs key⟩
  · intro h
    simp only [hrate]
    omega
  · intro h
    simp only [hrate]
    omega

/-- C18 at the map `{"sampleRate": "42"}`: the rate is 42 and the map is empty
afterwards. -/
theorem getSampleRate_string_witness :
    getSampleRate testEnv [("sampleRate", .string "42")] = (42, []) := by
  obtain ⟨_, h1, _, h2, _⟩ := getSampleRate_string testEnv [("sampleRate", .string "42")]
    "sampleRate" "42" 42 rfl (by decide) rfl rfl (by decide)
  exact Prod.ext (h1 (by decide)) h2

/-- C18 fails as stated: the string `2147483648` parses as the integer
2147483648, and `getSampleRate` returns 2147483647. -/
theorem getSampleRate_string_clamped :
    testEnv.atoi "2147483648" = some 2147483648 ∧
      getSampleRate testEnv [("sampleRate", .string "2147483648")] = (2147483647, []) ∧
      (2147483647 : Int) ≠ 2147483648 :=
  ⟨rfl, rfl, by decide⟩

/-- C19: for every attribute map whose matched sample-rate key holds a value that
cannot be coerced, a string that `strconv.Atoi` rejects or a value that is no
string, `int32`, `int` or `int64`, `getSampleRate` returns the default 1 and
removes the key from the map. -/
theorem getSampleRate_default (env : Env) (attrs : AttrMap) (key : String) (v : Value)
    (hkey : getSampleRateKey attrs = key) (hne : key ≠ "")
    (hval : mapGet attrs key = some v)
    (hbad : (∃ s, v = .string s ∧ env.atoi s = none) ∨
      ((∀ s, v ≠ .string s) ∧ (∀ i, v ≠ .int32 i) ∧ (∀ i, v ≠ .int i) ∧
        (∀ i, v ≠ .int64 i))) :
    (getSampleRate env attrs).1 = 1 ∧
      (getSampleRate env attrs).2 = mapDelete attrs key ∧
      mapGet (getSampleRate env attrs).2 key = none := by
  rw [getSampleRate_matched env attrs key hkey hne]
  refine ⟨?_, rfl, mapGet_mapDelete_self attrs key⟩
  rw [hval]
  rcases hbad with ⟨s, hs, hatoi⟩ | ⟨h1, h2, h3, h4⟩
  · subst hs
    simp [sampleRateOf, hatoi, defaultSampleRate]
  · cases v with
    | string s => exact absurd rfl (h1 s)
    | int32 i => exact absurd rfl (h2 i)
    | int i => exact absurd rfl (h3 i)
    | int64 i => exact absurd rfl (h4 i)
    | _ => rfl

/-- C19 at the strings `not-a-number` and the empty string, and at a float, a
bool and nil. -/
theorem getSampleRate_default_witness :
    getSampleRate testEnv [("sampleRate", .string "not-a-number")] = (1, []) ∧
      getSampleRate testEnv [("sampleRate", .string "")] = (1, []) ∧
      getSampleRate testEnv [("SampleRate", .float64 (.ofBits 0))] = (1, []) ∧
      getSampleRate testEnv [("sampleRate", .bool true)] = (1, []) ∧
      getSampleRate testEnv [("sampleRate", .nil)] = (1, []) := by
  obtain ⟨h1, h2, _⟩ := getSampleRate_default testEnv [("sampleRate", .string "not-a-number")]
    "sampleRate" (.string "not-a-number") rfl (by decide) rfl (Or.inl ⟨_, rfl, rfl⟩)
  exact ⟨Prod.ext h1 h2, rfl, rfl, rfl, rfl⟩

/-- C20, as the code has it: for every attribute map whose matched sample-rate
key holds an integer value `v`, `getSampleRate` returns `v` itself for an `int32`
and, for an `int` or `int64` with `v ≥ -2147483648`, 2147483647 when `v` exceeds
2147483647 and `v` itself otherwise; the key is removed. -/
theorem getSampleRate_integer (env : Env) (attrs : AttrMap) (key : String) (v : Int)
    (hkey : getSampleRateKey attrs = key) (hne : key ≠ "")
    (hval : mapGet attrs key = some (.int32 v) ∨
      ((mapGet attrs key = some (.int v) ∨ mapGet attrs key = some (.int64 v)) ∧
        -2147483648 ≤ v)) :
    (mapGet attrs key = some (.int32 v) → (getSampleRate env attrs).1 = v) ∧
      (mapGet attrs key ≠ some (.int32 v) →
        (getSampleRate env attrs).1 = min v 2147483647 ∧
        (v ≤ 2147483647 → (getSampleRate env attrs).1 = v) ∧
        (2147483647 < v → (getSampleRate env attrs).1 = 2147483647)) ∧
      (getSampleRate env attrs).2 = mapDelete attrs key ∧
      mapGet (getSampleRate env attrs).2 key = none := by
  rw [getSampleRate_matched env attrs key hkey hne]
  refine ⟨?_, ?_, rfl, mapGet_mapDelete_self attrs key⟩
  · intro h
    rw [h]
    rfl
  · intro hnot
    rcases hval with h32 | ⟨h | h, hlow⟩
    · exact absurd h32 hnot
    · have hrate : sampleRateOf env (mapGet attrs key) = min v 2147483647 := by
        rw [h]
        exact clamp_int32 v hlow
      rw [hrate]
      exact ⟨rfl, fun _ => by simp only []; omega, fun _ => by simp only []; omega⟩
    · have hrate : sampleRateOf env (mapGet attrs key) = min v 2147483647 := by
        rw [h]
        exact clamp_int32 v hlow
      rw [hrate]
      exact ⟨rfl, fun _ => by simp only []; omega, fun _ => by simp only []; omega⟩

/-- C20 at `{"SampleRate": int32(7)}` and at `{"sampleRate": int64(3000000000)}`. -/
theorem getSampleRate_integer_witness :
    getSampleRate testEnv [("SampleRate", .int32 7)] = (7, []) ∧
      getSampleRate testEnv [("sampleRate", .int64 3000000000)] = (2147483647, []) := by
  obtain ⟨h1, _, h2, _⟩ := getSampleRate_integer testEnv [("SampleRate", .int32 7)]
    "SampleRate" 7 rfl (by decide) (Or.inl rfl)
  obtain ⟨_, h3, h4, _⟩ := getSampleRate_integer testEnv [("sampleRate", .int64 3000000000)]
    "sampleRate" 3000000000 rfl (by decide) (Or.inr ⟨Or.inr rfl, by decide⟩)
  exact ⟨Prod.ext (h1 rfl) h2, Prod.ext ((h3 (by simp [mapGet])).2.2 (by decide)) h4⟩

/-- C20 fails as stated: the `int64` value -2147483649 does not exceed
2147483647, and `getSampleRate` returns 2147483647 for it, not the value
itself. -/
theorem getSampleRate_integer_wraps :
    getSampleRate testEnv [("sampleRate", .int64 (-2147483649))] = (2147483647, []) ∧
      ¬ ((-2147483649 : Int) > 2147483647) ∧ (2147483647 : Int) ≠ -2147483649 :=
  ⟨rfl, by decide, by decide⟩

/-! ## The last claims: removal of the matched key, sizes, sample rate of an event -/

theorem getSampleRateKey_first (attrs : AttrMap) (h : (mapGet attrs "sampleRate").isSome) :
    getSampleRateKey attrs = "sampleRate" := by
  simp [getSampleRateKey, h]

theorem getSampleRateKey_second (attrs : AttrMap) (h1 : mapGet attrs "sampleRate" = none)
    (h2 : (mapGet attrs "SampleRate").isSome) :
    getSampleRateKey attrs = "SampleRate" := by
  simp [getSampleRateKey, h1, h2]

/-- C21: `getSampleRate` removes the matched key and nothing else. For every map
that holds `sampleRate`, the rate is computed from the value under `sampleRate`
alone, also when `SampleRate` is present, `sampleRate` is absent afterwards and
every other key, `SampleRate` among them, holds what it held before. For every
map that holds `SampleRate` and not `sampleRate`, the same is true of
`SampleRate`. -/
theorem getSampleRate_removes_matched_key (env : Env) (attrs : AttrMap) :
    ((mapGet attrs "sampleRate").isSome →
        (getSampleRate env attrs).1 = sampleRateOf env (mapGet attrs "sampleRate") ∧
        (getSampleRate env attrs).2 = mapDelete attrs "sampleRate" ∧
        mapGet (getSampleRate env attrs).2 "sampleRate" = none ∧
        (∀ key, key ≠ "sampleRate" →
          mapGet (getSampleRate env attrs).2 key = mapGet attrs key) ∧
        mapGet (getSampleRate env attrs).2 "SampleRate" = mapGet attrs "SampleRate") ∧
      (mapGet attrs "sampleRate" = none → (mapGet attrs "SampleRate").isSome →
        (getSampleRate env attrs).1 = sampleRateOf env (mapGet attrs "SampleRate") ∧
        (getSampleRate env attrs).2 = mapDelete attrs "SampleRate" ∧
        mapGet (getSampleRate env attrs).2 "SampleRate" = none ∧
        ∀ key, key ≠ "SampleRate" →
          mapGet (getSampleRate env attrs).2 key = mapGet attrs key) := by
  constructor
  · intro h
    rw [getSampleRate_matched env attrs "sampleRate" (getSampleRateKey_first attrs h)
      (by decide)]
    exact ⟨rfl, rfl, mapGet_mapDelete_self attrs "sampleRate",
      fun key hne => mapGet_mapDelete_of_ne attrs "sampleRate" key (Ne.symm hne),
      mapGet_mapDelete_of_ne attrs "sampleRate" "SampleRate" (by decide)⟩
  · intro h1 h2
    rw [getSampleRate_matched env attrs "SampleRate" (getSampleRateKey_second attrs h1 h2)
      (by decide)]
    exact ⟨rfl, rfl, mapGet_mapDelete_self attrs "SampleRate",
      fun key hne => mapGet_mapDelete_of_ne attrs "SampleRate" key (Ne.symm hne)⟩

/-- C21 at a map that holds both keys and at a map that holds `SampleRate` only. -/
theorem getSampleRate_removes_matched_key_witness :
    getSampleRate testEnv
        [("sampleRate", .string "42"), ("SampleRate", .int32 7), ("other", .bool true)] =
        (42, [("SampleRate", .int32 7), ("other", .bool true)]) ∧
      getSampleRate testEnv [("other", .bool true), ("SampleRate", .int32 7)] =
        (7, [("other", .bool true)]) := by
  obtain ⟨h1, h2, _⟩ := (getSampleRate_removes_matched_key testEnv
    [("sampleRate", .string "42"), ("SampleRate", .int32 7), ("other", .bool true)]).1 rfl
  obtain ⟨h3, h4, _⟩ := (getSampleRate_removes_matched_key testEnv
    [("other", .bool true), ("SampleRate", .int32 7)]).2 rfl rfl
  exact ⟨Prod.ext (h1.trans rfl) (h2.trans rfl), Prod.ext (h3.trans rfl) (h4.trans rfl)⟩

theorem batches_sizeBytes {env : Env} {ri : RequestInfo} {resourceSpans : List ResourceSpans}
    {batches : List Batch} (h : List.Forall₂ (IsBatchOf env ri) resourceSpans batches) :
    batches.map (fun batch => batch.SizeBytes) =
      resourceSpans.map (fun resourceSpan => env.sizeResourceSpans resourceSpan) := by
  induction h with
  | nil => rfl
  | cons hof _ ih => simp only [List.map_cons, ih, hof.2.1]

/-- C22: for every decoded request, `RequestSize` of the result is `proto.Size` of
the whole request, and the `SizeBytes` of the i-th batch is `proto.Size` of the
i-th resource-span group: the list of the `SizeBytes` is the list of the sizes of
the groups, whatever the number of events of a batch. -/
theorem result_sizes (env : Env) (request : ExportTraceServiceRequest) (ri : RequestInfo) :
    ∃ result, TranslateTraceReq env request ri = .ret (some result, none) ∧
      result.RequestSize = env.sizeRequest request ∧
      result.Batches.map (fun batch => batch.SizeBytes) =
        request.ResourceSpans.map (fun resourceSpan => env.sizeResourceSpans resourceSpan) ∧
      List.Forall₂
        (fun resourceSpan batch =>
          batch.SizeBytes = env.sizeResourceSpans resourceSpan ∧
          batch.Events.length = (spansOf resourceSpan).length)
        request.ResourceSpans result.Batches := by
  obtain ⟨result, hret, hsize, hall⟩ := TranslateTraceReq_ret env request ri
  refine ⟨result, hret, hsize, batches_sizeBytes hall, List.Forall₂.imp ?_ hall⟩
  rintro resourceSpan batch ⟨_, hs, ra, hev⟩
  exact ⟨hs, hev.length_eq.symm⟩

/-- C23: for every decoded request, every event that `TranslateTraceReq` emits
has `SampleRate` 0, and the sample-rate extraction removes no key from its
attributes: the map handed to `getSampleRate` is the assembled top-level map,
which `getSampleRate` returns as it is; its keys are fixed names, none of them
`sampleRate` or `SampleRate`; the attributes of the span, the resource and the
span-events stay in the three nested maps, whatever keys they hold. -/
theorem event_sampleRate_zero (env : Env) (request : ExportTraceServiceRequest)
    (ri : RequestInfo) :
    ∃ result, TranslateTraceReq env request ri = .ret (some result, none) ∧
      EachEvent request result fun resourceSpan span event =>
        event.SampleRate = 0 ∧
          (∃ traceID ra sa ea,
            event.Attributes = spanEventAttrs span traceID ra sa ea ∧
            getSampleRate env (spanEventAttrs span traceID ra sa ea) =
              (0, event.Attributes)) ∧
          mapGet event.Attributes "sampleRate" = none ∧
          mapGet event.Attributes "SampleRate" = none ∧
          (∀ key, (mapGet event.Attributes key).isSome →
            key ∈ baseKeys ∨ key = "traceParentID" ∨ key = "statusMessage") ∧
          subMap result.heap event.Attributes "resourceAttributes" =
            some (resourceAttrsOf env resourceSpan) ∧
          subMap result.heap event.Attributes "spanAttributes" = some (spanAttrsOf env span) ∧
          subMap result.heap event.Attributes "eventAttributes" =
            some (eventAttrsOf env span) := by
  obtain ⟨result, hret, hall⟩ := TranslateTraceReq_facts env request ri
  refine ⟨result, hret, hall.imp ?_⟩
  rintro resourceSpan span event ⟨traceID, ra, sa, ea, _, hattrs, _, hsr, hgr, hgs, hge⟩
  obtain ⟨hk1, hk2⟩ := mapGet_spanEventAttrs_sampleRate span traceID ra sa ea
  obtain ⟨hr, hs, he⟩ := mapGet_spanEventAttrs_refs span traceID ra sa ea
  refine ⟨hsr, ⟨traceID, ra, sa, ea, hattrs, ?_⟩, ?_, ?_, ?_, ?_, ?_, ?_⟩
  · rw [hattrs]
    exact getSampleRate_spanEventAttrs env span traceID ra sa ea
  · rw [hattrs]; exact hk1
  · rw [hattrs]; exact hk2
  · intro key hkey
    rw [hattrs, mapGet_isSome_iff, spanEventAttrs_keys, mem_event_keys] at hkey
    rcases hkey with h | h | h
    · exact Or.inl h
    · refine Or.inr (Or.inl ?_)
      by_cases hp : span.ParentSpanId.isSome
      · rw [if_pos hp] at h
        simpa using h
      · rw [if_neg hp] at h
        cases h
    · refine Or.inr (Or.inr ?_)
      cases hst : span.Status with
      | none =>
        rw [hst] at h
        cases h
      | some status =>
        rw [hst] at h
        by_cases hmsg : status.Message ≠ ""
        · simp only [if_pos hmsg] at h
          simpa using h
        · simp only [if_neg hmsg] at h
          cases h
  · rw [← hgr]
    exact subMap_of_mapRef _ _ _ _ (by rw [hattrs]; exact hr)
  · rw [← hgs]
    exact subMap_of_mapRef _ _ _ _ (by rw [hattrs]; exact hs)
  · rw [← hge]
    exact subMap_of_mapRef _ _ _ _ (by rw [hattrs]; exact he)

/-- An example of the sample rate of an event: in `sampleRateRequest` the
resource, the span and the span-event carry an attribute `sampleRate` or
`SampleRate`; the event has `SampleRate` 0 and the three nested maps still hold
these attributes. -/
theorem event_sampleRate_zero_example :
    ∃ result,
      TranslateTraceReq testEnv sampleRateRequest { Dataset := "ds", ContentEncoding := "" } =
        .ret (some result, none) ∧
      result.Batches.map (fun batch => batch.Events.map fun event =>
          (event.SampleRate, mapGet event.Attributes "sampleRate",
            subMap result.heap event.Attributes "resourceAttributes",
            subMap result.heap event.Attributes "spanAttributes",
            subMap result.heap event.Attributes "eventAttributes")) =
        [[(0, none, some [("sampleRate", .int64 5)], some [("sampleRate", .string "42")],
            some [("SampleRate", .int64 7)])]] :=
  ⟨_, rfl, rfl⟩

end Otlp
